import Mathlib

/-!
Verification development for the readability content-extraction engine
(`src/readability.js`).  The JavaScript source is shallowly embedded:

* JS strings are modelled as Lean `String` / `List Char` (ASCII case folding
  is used for the case-insensitive regular expressions of the source);
* JS numbers are modelled as `Nat` / `Int` / `Rat` (all arithmetic the
  embedded fragments perform is exact on the inputs considered);
* the DOM tree handed to the engine is modelled by the inductive `DNode`;
  each element node carries a `ref` identity standing for JS object
  identity (the source mutates nodes in place and stores per-node state on
  the node object; the embedding rebuilds trees and addresses nodes by
  `ref`);
* the regular expressions of `Readability.prototype.REGEXPS` are modelled
  by explicit decidable string predicates with the same matching semantics
  on the strings concerned;
* platform APIs that are not part of the repository (WHATWG `URL`
  resolution) are abstracted by an explicit environment (`UriEnv`) or by a
  small concrete model (`modelResolve`).
-/

namespace Readability

/-! ## JS string helpers -/

/-- Whitespace characters recognised by the embedding of the JS `\s`
character class (ASCII fragment). -/
def isWsChar (c : Char) : Bool :=
  c == ' ' || c == '\t' || c == '\n' || c == '\r' || c == '\x0b' || c == '\x0c'

/-- ASCII lowercasing of a character list, modelling `String.toLowerCase`
and the `i` regex flag on the ASCII strings exercised here. -/
def lowerList (cs : List Char) : List Char :=
  cs.map Char.toLower

/-- Model of `String.prototype.trim`. -/
def trimList (cs : List Char) : List Char :=
  ((cs.dropWhile isWsChar).reverse.dropWhile isWsChar).reverse

mutual

/-- Model of `str.replace(/\s{2,}/g, " ")` (the source's `REGEXPS.normalize`):
every maximal run of two or more whitespace characters becomes a single
space, single whitespace characters are kept unchanged. -/
def normalizeWsList : List Char → List Char
  | [] => []
  | c :: rest => if isWsChar c then normWsPending c rest else c :: normalizeWsList rest

/-- One whitespace character is pending: a second one turns the run into a
single space, otherwise the pending character is emitted unchanged. -/
def normWsPending : Char → List Char → List Char
  | w, [] => [w]
  | w, c :: rest =>
    if isWsChar c then ' ' :: normWsAfterRun rest else w :: c :: normalizeWsList rest

/-- Skip the remainder of a collapsed whitespace run. -/
def normWsAfterRun : List Char → List Char
  | [] => []
  | c :: rest => if isWsChar c then normWsAfterRun rest else c :: normalizeWsList rest

end

mutual

/-- Number of maximal whitespace runs in a character list. -/
def wsRunCount : List Char → Nat
  | [] => 0
  | c :: rest => if isWsChar c then 1 + wsRunInside rest else wsRunCount rest

def wsRunInside : List Char → Nat
  | [] => 0
  | c :: rest => if isWsChar c then wsRunInside rest else wsRunCount rest

end

/-- Model of the source's `wordCount` helper
(`str ? str.split(/\s+/).length : 0`): a JS split on whitespace runs yields
one piece more than the number of runs (empty edge pieces included), and
the empty string is counted as zero. -/
def wordCount (s : String) : Nat :=
  if s = "" then 0 else wsRunCount s.data + 1

/-- Boolean prefix test on character lists. -/
def listIsPrefix : List Char → List Char → Bool
  | [], _ => true
  | _ :: _, [] => false
  | p :: ps, c :: cs => p == c && listIsPrefix ps cs

/-- Boolean suffix test on character lists. -/
def listIsSuffix (pat s : List Char) : Bool :=
  listIsPrefix pat.reverse s.reverse

/-- Occurrence test of a pattern inside a character list (model of a JS
regex alternative consisting of a literal). -/
def containsList (pat : List Char) : List Char → Bool
  | [] => pat.isEmpty
  | c :: rest => listIsPrefix pat (c :: rest) || containsList pat rest

/-- First occurrence index of a pattern in a character list, or `none`
(model of `String.prototype.indexOf`). -/
def indexOfList (pat : List Char) : List Char → Option Nat
  | [] => if pat.isEmpty then some 0 else none
  | c :: rest =>
    if listIsPrefix pat (c :: rest) then some 0
    else (indexOfList pat rest).map (· + 1)

/-- Model of `String.prototype.startsWith`. -/
def jsStartsWith (s pat : String) : Bool :=
  listIsPrefix pat.data s.data

/-- Concatenation of a list of strings with `" "` separators, modelling
`Array.prototype.join(" ")`. -/
def joinSpace : List String → String
  | [] => ""
  | [s] => s
  | s :: rest => s ++ " " ++ joinSpace rest

/-- Count of occurrences of a single character (used by `_getCharCount`
with the default `","` argument). -/
def countChar (c : Char) (cs : List Char) : Nat :=
  cs.countP (· == c)

/-! ## DOM model -/

/-- Model of the DOM nodes the engine manipulates.  `ref` models JS object
identity of an element node; `tag` is the uppercase `tagName`; `attrs` is
the attribute list in document order (first occurrence wins on lookup,
mirroring `getAttribute`). -/
inductive DNode where
  | text (s : String)
  | elem (ref : Nat) (tag : String) (attrs : List (String × String)) (children : List DNode)

/-- Attribute lookup (first occurrence), modelling `getAttribute` returning
`null` as `none`. -/
def attrsGet (name : String) : List (String × String) → Option String
  | [] => none
  | (n, v) :: rest => if n = name then some v else attrsGet name rest

/-- Attribute update, modelling `setAttribute` (replaces the first existing
occurrence, otherwise appends). -/
def attrsSet (name val : String) : List (String × String) → List (String × String)
  | [] => [(name, val)]
  | (n, v) :: rest => if n = name then (n, val) :: rest else (n, v) :: attrsSet name val rest

/-- Attribute removal, modelling `removeAttribute`. -/
def attrsRemove (name : String) (l : List (String × String)) : List (String × String) :=
  l.filter (fun p => p.1 ≠ name)

/-- The node's `getAttribute` on an element; `none` on text nodes. -/
def DNode.getAttr (name : String) : DNode → Option String
  | .text _ => none
  | .elem _ _ a _ => attrsGet name a

/-- Model of `node.className` (empty string when the attribute is absent,
matching the `node.className || ""` uses in the source). -/
def DNode.className (n : DNode) : String :=
  (n.getAttr "class").getD ""

/-- Model of `node.id` (empty string when absent). -/
def DNode.idStr (n : DNode) : String :=
  (n.getAttr "id").getD ""

/-- The `ref` identity of an element node (text nodes yield 0; they are
never addressed by ref). -/
def DNode.refOf : DNode → Nat
  | .text _ => 0
  | .elem r _ _ _ => r

/-- The uppercase `tagName` of an element node (text nodes yield ""). -/
def DNode.tagOf : DNode → String
  | .text _ => ""
  | .elem _ t _ _ => t

def DNode.isElem : DNode → Bool
  | .text _ => false
  | .elem _ _ _ _ => true

def DNode.childNodes : DNode → List DNode
  | .text _ => []
  | .elem _ _ _ cs => cs

/-- Element children (model of `node.children`). -/
def DNode.elemChildren (n : DNode) : List DNode :=
  n.childNodes.filter DNode.isElem

mutual

/-- Model of `node.textContent`: concatenation of all descendant text. -/
def DNode.textContent : DNode → String
  | .text s => s
  | .elem _ _ _ cs => textContentList cs

def textContentList : List DNode → String
  | [] => ""
  | c :: cs => c.textContent ++ textContentList cs

end

/-- Model of `_getInnerText(e, normalizeSpaces)`: trimmed `textContent`,
optionally with whitespace runs collapsed. -/
def getInnerText (e : DNode) (normalizeSpaces : Bool := true) : String :=
  let t := trimList e.textContent.data
  if normalizeSpaces then ⟨normalizeWsList t⟩ else ⟨t⟩

mutual

/-- All element nodes of a tree in document (pre)order, the root included. -/
def allElems : DNode → List DNode
  | .text _ => []
  | .elem r t a cs => .elem r t a cs :: allElemsList cs

def allElemsList : List DNode → List DNode
  | [] => []
  | c :: cs => allElems c ++ allElemsList cs

end

/-- All element descendants of a node, the node itself excluded (matching
`querySelectorAll` / `getElementsByTagName` which return descendants
only). -/
def descendantElems (n : DNode) : List DNode :=
  allElemsList n.childNodes

/-- Model of `_getAllNodesWithTag(node, tagNames)`: static pre-order list
of the descendant elements whose tag is in the list. -/
def getAllNodesWithTag (n : DNode) (tags : List String) : List DNode :=
  (descendantElems n).filter (fun e => tags.contains e.tagOf)

/-- Number of element nodes of a document tree, root included (model of
`doc.getElementsByTagName("*").length` as used by `parse`). -/
def countElements (n : DNode) : Nat :=
  (allElems n).length

mutual

/-- Locate the first element with the given `ref` (pre-order). -/
def findByRef (r : Nat) : DNode → Option DNode
  | .text _ => none
  | .elem r' t a cs =>
    if r' = r then some (.elem r' t a cs) else findByRefList r cs

def findByRefList (r : Nat) : List DNode → Option DNode
  | [] => none
  | c :: cs =>
    match findByRef r c with
    | some n => some n
    | none => findByRefList r cs

end

mutual

/-- Remove every element carrying the given ref (on the unique-ref trees
used here this is exactly `node.remove()` for that node). -/
def removeByRef (r : Nat) : DNode → DNode
  | .text s => .text s
  | .elem r' t a cs => .elem r' t a (removeByRefList r cs)

def removeByRefList (r : Nat) : List DNode → List DNode
  | [] => []
  | .text s :: rest => .text s :: removeByRefList r rest
  | .elem r' t a cs :: rest =>
    if r' = r then removeByRefList r rest
    else removeByRef r (.elem r' t a cs) :: removeByRefList r rest

end

mutual

/-- The chain of ancestor elements of the element with the given ref,
nearest ancestor first (the located node itself excluded); `none` when the
ref does not occur.  Each ancestor is returned as its current subtree. -/
def ancestorsOfRef (r : Nat) : DNode → Option (List DNode)
  | .text _ => none
  | .elem r' t a cs =>
    if r' = r then some []
    else
      match ancestorsOfRefList r cs with
      | some l => some (l ++ [.elem r' t a cs])
      | none => none

def ancestorsOfRefList (r : Nat) : List DNode → Option (List DNode)
  | [] => none
  | c :: cs =>
    match ancestorsOfRef r c with
    | some l => some l
    | none => ancestorsOfRefList r cs

end

/-- Model of `_hasAncestorTag(node, tagName, maxDepth, filterFn)` for the
node with ref `r` inside `root`; `maxDepth ≤ 0` means unlimited (the
source's default is 3). -/
def hasAncestorTagAux (tagName : String) (maxDepth : Int) (filterFn : DNode → Bool) :
    List DNode → Nat → Bool
  | [], _ => false
  | anc :: rest, depth =>
    if maxDepth > 0 && (depth : Int) ≥ maxDepth then false
    else if anc.tagOf = tagName && filterFn anc then true
    else hasAncestorTagAux tagName maxDepth filterFn rest (depth + 1)

def hasAncestorTag (root : DNode) (r : Nat) (tagName : String)
    (maxDepth : Int := 3) (filterFn : DNode → Bool := fun _ => true) : Bool :=
  match ancestorsOfRef r root with
  | none => false
  | some l => hasAncestorTagAux tagName maxDepth filterFn l 0

/-! ## Heuristic flags (`FLAG_*`, `_flagIsActive`) -/

def FLAG_STRIP_UNLIKELYS : Nat := 1
def FLAG_WEIGHT_CLASSES : Nat := 2
def FLAG_CLEAN_CONDITIONALLY : Nat := 4

/-- Model of `_flagIsActive(flag)`: `(this._flags & flag) > 0`. -/
def flagIsActive (flags flag : Nat) : Bool :=
  flags &&& flag > 0

/-! ## Models of the source's regular expressions (`REGEXPS`)

Each predicate implements `REGEXPS.<name>.test(s)` for its pattern; the
case-insensitive flags are modelled by ASCII lowercasing. -/

/-- Word characters of the JS `\w` class, underscore excluded (used for the
`\b` boundaries of `REGEXPS.shareElements`); input is already lowercased. -/
def isAlnumChar (c : Char) : Bool :=
  ('a' ≤ c && c ≤ 'z') || ('A' ≤ c && c ≤ 'Z') || ('0' ≤ c && c ≤ '9')

/-- Model of `REGEXPS.positive.test` (alternation of literal substrings). -/
def rePositiveTest (s : String) : Bool :=
  let t := lowerList s.data
  ["article", "body", "content", "entry", "hentry", "h-entry", "main", "page",
   "pagination", "post", "text", "blog", "story"].any
    (fun p => containsList p.data t)

/-- Model of `REGEXPS.negative.test`.  All alternatives are literal
substrings except the four anchored `hid` forms, which are expanded into
whole-string / edge / interior occurrence tests. -/
def reNegativeTest (s : String) : Bool :=
  let t := lowerList s.data
  ["-ad-", "hidden", "banner", "combx", "comment", "com-", "contact",
   "footer", "gdpr", "masthead", "media", "meta", "outbrain", "promo",
   "related", "scroll", "share", "shoutbox", "sidebar", "skyscraper",
   "sponsor", "shopping", "tags", "widget"].any (fun p => containsList p.data t)
  || t == "hid".data
  || listIsSuffix " hid".data t
  || containsList " hid ".data t
  || listIsPrefix "hid ".data t

/-- Boundary-or-underscore condition before a `share` occurrence for
`REGEXPS.shareElements` (`(\b|_)`): start of string, a non-word character,
or a literal underscore. -/
def shareBoundary : Option Char → Bool
  | none => true
  | some c => !isAlnumChar c

/-- One alternative of `REGEXPS.shareElements` matching at the head of `t`,
with the trailing `(\b|_)` condition. -/
def shareAltAt (pat t : List Char) : Bool :=
  listIsPrefix pat t &&
    (match t.drop pat.length with
     | [] => true
     | c :: _ => !isAlnumChar c)

/-- Scan for `REGEXPS.shareElements` matches, carrying the previous
character for the leading boundary. -/
def shareScan : Option Char → List Char → Bool
  | prev, t =>
    (shareBoundary prev && (shareAltAt "share".data t || shareAltAt "sharedaddy".data t))
    || (match t with
        | [] => false
        | c :: rest => shareScan (some c) rest)

/-- Model of `REGEXPS.shareElements.test` (`/(\b|_)(share|sharedaddy)(\b|_)/i`). -/
def reShareElementsTest (s : String) : Bool :=
  shareScan none (lowerList s.data)

/-- Model of `REGEXPS.adWords.test`; the pattern is anchored on both sides,
so it is a whole-string comparison against the expanded alternatives
(ASCII case folding; both case forms of the Cyrillic word are listed). -/
def reAdWordsTest (s : String) : Bool :=
  let t : String := ⟨lowerList s.data⟩
  ["ad", "advertising", "advertisement", "pub", "publicité", "werb",
   "werbung", "广告", "Реклама", "реклама", "anuncio"].contains t

/-- Model of `REGEXPS.loadingWords.test` (anchored; optional `…` or `...`
suffix). -/
def reLoadingWordsTest (s : String) : Bool :=
  let t : String := ⟨lowerList s.data⟩
  ["loading", "正在加载", "Загрузка", "загрузка", "chargement", "cargando"].any
    (fun b => t = b || t = b ++ "…" || t = b ++ "...")

/-- Domain alternatives of `REGEXPS.videos` (the unescaped dot of
`live.bilibili` is modelled as a literal dot). -/
def videoDomains : List String :=
  ["dailymotion.com", "youtube.com", "youtube-nocookie.com",
   "player.vimeo.com", "v.qq.com", "bilibili.com", "live.bilibili.com",
   "archive.org", "upload.wikimedia.org", "player.twitch.tv"]

/-- A `REGEXPS.videos` match starting exactly here: `//`, optional `www.`,
then one of the domain alternatives. -/
def videoMatchAt (t : List Char) : Bool :=
  if listIsPrefix "//".data t then
    let t1 := t.drop 2
    let t2 := if listIsPrefix "www.".data t1 then t1.drop 4 else t1
    videoDomains.any (fun d => listIsPrefix d.data t2)
  else false

def videoScan : List Char → Bool
  | [] => false
  | c :: rest => videoMatchAt (c :: rest) || videoScan rest

/-- Model of `REGEXPS.videos.test` (the default `_allowedVideoRegex`). -/
def reVideosTest (s : String) : Bool :=
  videoScan (lowerList s.data)

/-- Model of `REGEXPS.hashUrl.test` (`/^#.+/`). -/
def reHashUrlTest (h : String) : Bool :=
  match h.data with
  | '#' :: _ :: _ => true
  | _ => false

/-- Model of `REGEXPS.whitespace.test(textContent)` (`/^\s*$/`). -/
def isAllWsString (s : String) : Bool :=
  s.data.all isWsChar

/-! ## Weights, densities and counts -/

/-- Model of `_getClassWeight(e)` on the class and id strings: 0 when the
`WeightClasses` flag is off, otherwise ±25 per negative/positive match on
each of class and id (empty strings are falsy and skipped). -/
def getClassWeightStr (flags : Nat) (className idAttr : String) : Int :=
  if !flagIsActive flags FLAG_WEIGHT_CLASSES then 0
  else
    (if className ≠ "" then
        (if reNegativeTest className then -25 else 0)
          + (if rePositiveTest className then 25 else 0)
      else 0)
    + (if idAttr ≠ "" then
        (if reNegativeTest idAttr then -25 else 0)
          + (if rePositiveTest idAttr then 25 else 0)
      else 0)

def getClassWeight (flags : Nat) (e : DNode) : Int :=
  getClassWeightStr flags e.className e.idStr

/-- The per-link length coefficient of `_getLinkDensity` (hash links are
discounted to 0.3). -/
def linkCoefficient (l : DNode) : ℚ :=
  match l.getAttr "href" with
  | some h => if reHashUrlTest h then 3/10 else 1
  | none => 1

/-- Model of `_getLinkDensity(element)`. -/
def getLinkDensity (e : DNode) : ℚ :=
  let textLength := (getInnerText e).length
  if textLength = 0 then 0
  else
    let links := getAllNodesWithTag e ["A"]
    let linkLength :=
      links.foldl (fun acc l => acc + ((getInnerText l).length : ℚ) * linkCoefficient l) 0
    linkLength / textLength

/-- Model of `_getCharCount(e, ",")`. -/
def getCharCount (e : DNode) : Nat :=
  countChar ',' (getInnerText e).data

/-- The comma characters of `REGEXPS.commas` (used by the scorer's
`innerText.split(REGEXPS.commas).length - 1`). -/
def commaChars : List Char :=
  [',', '،', '﹐', '︐', '︑', '⹁', '⸴', '⸲', '，']

/-- Occurrence count of scorer commas: splitting on single-character
alternatives yields one piece more than the number of occurrences. -/
def countCommas (s : String) : Nat :=
  s.data.countP (fun c => commaChars.contains c)

/-! ## Defaults and the `parse()` element-count guard -/

def DEFAULT_MAX_ELEMS_TO_PARSE : Nat := 0
def DEFAULT_N_TOP_CANDIDATES : Nat := 5
def DEFAULT_CHAR_THRESHOLD : Nat := 500

/-- Model of the head of `parse()`: when the configured ceiling is positive
and the number of elements exceeds it, an error is thrown before anything
else runs; otherwise the rest of the pipeline (abstracted as `pipeline`,
the first mutating step being `_unwrapNoscriptImages`) is applied to the
still-untouched document. -/
def parseWithGuard {α : Type} (maxElemsToParse : Nat) (doc : DNode)
    (pipeline : DNode → α) : Except String α :=
  if maxElemsToParse > 0 then
    if countElements doc > maxElemsToParse then
      .error "Aborting parsing document; too many elements found"
    else .ok (pipeline doc)
  else .ok (pipeline doc)

/-! ## The `_grabArticle` retry loop (lines 1045--1496)

Each attempt runs on a fresh `cloneNode(true)` of the original body;
cloning copies no expando properties, so no `readability` scoring state is
carried between attempts.  An attempt is therefore a pure function of its
flag combination alone, modelled by `run : Nat → AttemptResult α`. -/

structure AttemptResult (α : Type) where
  articleContent : α
  textLength : Nat

/-- The flag combinations tried by `_grabArticle`, in order
(`flagSequences` of the source). -/
def flagSequences : List Nat :=
  [FLAG_STRIP_UNLIKELYS ||| FLAG_WEIGHT_CLASSES ||| FLAG_CLEAN_CONDITIONALLY,
   FLAG_WEIGHT_CLASSES ||| FLAG_CLEAN_CONDITIONALLY,
   FLAG_CLEAN_CONDITIONALLY,
   0]

/-- Head of the stable descending sort of `_attempts` by `textLength`:
the earliest attempt attaining the maximal length. -/
def firstMaxAttempt {α : Type} : List (AttemptResult α) → Option (AttemptResult α)
  | [] => none
  | a :: rest =>
    match firstMaxAttempt rest with
    | none => some a
    | some b => if b.textLength > a.textLength then some b else some a

/-- The retry loop: run attempts in flag order; the first attempt reaching
the character threshold is returned at once; failed attempts are recorded;
when all fail, the recorded attempt with the greatest length is returned
if it produced any text, otherwise `none`. -/
def grabArticleLoop {α : Type} (run : Nat → AttemptResult α) (charThreshold : Nat) :
    List Nat → List (AttemptResult α) → Option (AttemptResult α)
  | [], attempts =>
    match firstMaxAttempt attempts with
    | some a => if a.textLength > 0 then some a else none
    | none => none
  | f :: rest, attempts =>
    let out := run f
    if out.textLength ≥ charThreshold then some out
    else grabArticleLoop run charThreshold rest (attempts ++ [out])

/-- Model of `_grabArticle`'s attempt control flow. -/
def grabArticle {α : Type} (run : Nat → AttemptResult α) (charThreshold : Nat) :
    Option (AttemptResult α) :=
  grabArticleLoop run charThreshold flagSequences []

/-! ## Candidate scoring (lines 1244--1306 and `_initializeNode`) -/

/-- The data of an ancestor node the scorer inspects; `valid` models the
`ancestor.tagName && ancestor.parentNode && ...` guard of the `forEach`
(false e.g. for the document node). -/
structure AncestorInfo where
  ref : Nat
  tagName : String
  className : String
  idStr : String
  valid : Bool

/-- The tag-based base score of `_initializeNode`'s `switch`. -/
def initialTagScore (tag : String) : Int :=
  if tag = "DIV" then 5
  else if tag ∈ ["PRE", "TD", "BLOCKQUOTE"] then 3
  else if tag ∈ ["ADDRESS", "OL", "UL", "DL", "DD", "DT", "LI", "FORM"] then -3
  else if tag ∈ ["H1", "H2", "H3", "H4", "H5", "H6", "TH"] then -5
  else 0

/-- Model of `_initializeNode`: `contentScore` starts at 0, receives the
tag base, then the class weight. -/
def initializeNodeScore (flags : Nat) (a : AncestorInfo) : ℚ :=
  ((0 + initialTagScore a.tagName + getClassWeightStr flags a.className a.idStr : Int) : ℚ)

/-- The per-pass scoring side table: `scores r` models
`node.readability.contentScore` (`none` = not yet initialized), and
`candidates` the refs pushed on first initialization. -/
structure ScoreState where
  scores : Nat → Option ℚ
  candidates : List Nat

def emptyScoreState : ScoreState :=
  ⟨fun _ => none, []⟩

def updateScore (m : Nat → Option ℚ) (r : Nat) (v : ℚ) : Nat → Option ℚ :=
  fun r' => if r' = r then some v else m r'

/-- The level-dependent divisor of the ancestor loop (level 0 → 1,
level 1 → 2, level ≥ 2 → level × 3). -/
def scoreDivider (level : Nat) : ℚ :=
  if level = 1 then 2 else if level > 1 then (level : ℚ) * 3 else 1

/-- The scored element's contribution: base 1, plus the comma count, plus
`min(floor(textLength / 100), 3)`. -/
def elementContentScore (innerText : String) : ℚ :=
  1 + (countCommas innerText : ℚ) + ((min (innerText.length / 100) 3 : Nat) : ℚ)

/-- One iteration of the scorer's `ancestors.forEach`: skip invalid
ancestors; initialize the node's score on first visit (pushing it to the
candidate list); then add the divided contribution. -/
def scoreAncestorStep (flags : Nat) (contentScore : ℚ) (a : AncestorInfo)
    (level : Nat) (st : ScoreState) : ScoreState :=
  if !a.valid then st
  else
    let st1 : ScoreState :=
      match st.scores a.ref with
      | none =>
        { scores := updateScore st.scores a.ref (initializeNodeScore flags a),
          candidates := st.candidates ++ [a.ref] }
      | some _ => st
    { st1 with
      scores := updateScore st1.scores a.ref
        (((st1.scores a.ref).getD 0) + contentScore / scoreDivider level) }

def scoreAncestors (flags : Nat) (contentScore : ℚ) :
    List AncestorInfo → Nat → ScoreState → ScoreState
  | [], _, st => st
  | a :: rest, level, st =>
    scoreAncestors flags contentScore rest (level + 1)
      (scoreAncestorStep flags contentScore a level st)

/-- Scoring of one element from `elementsToScore` (lines 1250--1281): the
element is skipped when its inner text is shorter than 25 characters or it
has no ancestors; otherwise its contribution is propagated to its up-to-5
ancestors (`_getNodeAncestors(elementToScore, 5)`). -/
def scoreElement (flags : Nat) (e : DNode) (ancestors : List AncestorInfo)
    (st : ScoreState) : ScoreState :=
  let innerText := getInnerText e
  if innerText.length < 25 then st
  else if ancestors.isEmpty then st
  else scoreAncestors flags (elementContentScore innerText) (ancestors.take 5) 0 st

/-- The link-density scaling of line 1290: every candidate's accumulated
score is multiplied by `1 − linkDensity` (the `ld` argument maps each
candidate ref to its `_getLinkDensity`). -/
def finalizeCandidateScores (ld : Nat → ℚ) (st : ScoreState) : ScoreState :=
  { st with
    scores := fun r =>
      if st.candidates.contains r then (st.scores r).map (fun s => s * (1 - ld r))
      else st.scores r }

/-! ## Text similarity and JSON-LD title resolution -/

/-- A JS `\w` word character (letters, digits, underscore). -/
def isWordChar (c : Char) : Bool :=
  isAlnumChar c || c == '_'

mutual

/-- Maximal runs of word characters of an (already lowercased) character
list: model of `split(REGEXPS.tokenize).filter(Boolean)`. -/
def tokenizeWords : List Char → List String
  | [] => []
  | c :: rest => if isWordChar c then tokenizeInWord [c] rest else tokenizeWords rest

/-- Inside a word run; the accumulator holds the run reversed. -/
def tokenizeInWord : List Char → List Char → List String
  | acc, [] => [(⟨acc.reverse⟩ : String)]
  | acc, c :: rest =>
    if isWordChar c then tokenizeInWord (c :: acc) rest
    else (⟨acc.reverse⟩ : String) :: tokenizeWords rest

end

/-- Model of `textX.toLowerCase().split(REGEXPS.tokenize).filter(Boolean)`. -/
def tokenize (s : String) : List String :=
  tokenizeWords (lowerList s.data)

/-- Model of `_textSimilarity(textA, textB)`: one minus the proportion (by
joined length) of `textB`'s tokens that do not occur among `textA`'s. -/
def textSimilarity (textA textB : String) : ℚ :=
  if textA = "" || textB = "" then 0
  else
    let tokensA := tokenize textA
    let tokensB := tokenize textB
    if tokensA.isEmpty || tokensB.isEmpty then 0
    else
      let uniqTokensB := tokensB.filter (fun tk => !tokensA.contains tk)
      let uniqueLengthB := (joinSpace uniqTokensB).length
      let totalLengthB := (joinSpace tokensB).length
      if totalLengthB = 0 then 0
      else 1 - (uniqueLengthB : ℚ) / (totalLengthB : ℚ)

/-- Model of the JSON-LD title resolution of `_getJSONLD` (lines
1654--1663) for the case where `parsed.name` and `parsed.headline` are
both strings: when they differ, the headline is preferred exactly when its
similarity to the HTML-derived title strictly exceeds both the name's
similarity and 0.75; when they coincide the `parsed.name || parsed.headline`
branch applies. -/
def jsonLdTitle (name headline htmlTitle : String) : String :=
  if name ≠ headline then
    let nameSimilarity := textSimilarity name htmlTitle
    let headlineSimilarity := textSimilarity headline htmlTitle
    if headlineSimilarity > nameSimilarity ∧ headlineSimilarity > (3/4 : ℚ) then headline
    else name
  else if name ≠ "" then name else headline

/-! ## Title separator cleanup (`_getArticleTitle`, lines 559--662) -/

/-- The hierarchical separator characters of the title heuristics. -/
def titleSeparatorChars : List Char :=
  ['|', '-', '–', '—', '\\', '/', '»']

def isTitleSep (c : Char) : Bool :=
  titleSeparatorChars.contains c

/-- First match of `/\s([\|\-–—\\\/»])\s/` in a character list: the three
matched characters (whitespace, separator, whitespace), or `none`. -/
def findSepMatch : List Char → Option (List Char)
  | a :: b :: c :: rest =>
    if isWsChar a && isTitleSep b && isWsChar c then some [a, b, c]
    else findSepMatch (b :: c :: rest)
  | _ => none

/-- JS `split` with the capturing pattern
`/(\s(?:\||\-|\–|\—|\\|\/|»)\s)/g`: the result alternates text pieces and
the captured 3-character separator matches. -/
def splitSepsAux : List Char → List Char → List (List Char)
  | [], acc => [acc.reverse]
  | a :: b :: c :: rest, acc =>
    if isWsChar a && isTitleSep b && isWsChar c then
      acc.reverse :: [a, b, c] :: splitSepsAux rest []
    else splitSepsAux (b :: c :: rest) (a :: acc)
  | a :: rest, acc => splitSepsAux rest (a :: acc)

def jsSplitTitleSeps (cs : List Char) : List (List Char) :=
  splitSepsAux cs []

/-- Stable insertion step for the JS sort by descending length (an element
is placed before later elements of equal length). -/
def insertByLenDesc (s : String) : List String → List String
  | [] => [s]
  | t :: rest => if s.length ≥ t.length then s :: t :: rest else t :: insertByLenDesc s rest

/-- Model of `possibleTitles.sort((a, b) => b.length - a.length)` (stable,
as JS `sort` is). -/
def jsSortByLenDesc : List String → List String
  | [] => []
  | s :: rest => insertByLenDesc s (jsSortByLenDesc rest)

/-- JS `substring(start)` (start clamped below by 0). -/
def jsSubstringFrom (s : String) (start : Int) : String :=
  ⟨s.data.drop (max start 0).toNat⟩

/-- Model of the separator branch of `_getArticleTitle` (lines 559--601):
under the more-than-4-words gate and a space-surrounded separator match,
split on all separators, consider the first part (when longer than 3
characters) and the last part (when there are at least two parts and it is
longer than 3 characters), take the longest of those considered (the
first on ties), and when the result has fewer than 3 words fall back to
the original title's text after the first separator match.  The colon
branch of the source (taken only when no separator matches) is outside
this model. -/
def separatorTitleCleanup (curTitle origTitle : String) : String :=
  if wordCount curTitle > 4 then
    match findSepMatch curTitle.data with
    | none => curTitle
    | some m =>
      let parts := (jsSplitTitleSeps curTitle.data).map (fun l => (⟨l⟩ : String))
      let possibleTitles :=
        (if parts.length > 1 ∧ ((parts.getD 0 "").length > 3) then [parts.getD 0 ""] else [])
        ++ (if parts.length > 2 ∧ ((parts.getLast?.getD "").length > 3) then
              [parts.getLast?.getD ""]
            else [])
      let cur1 :=
        match jsSortByLenDesc possibleTitles with
        | [] => curTitle
        | t :: _ => t
      if wordCount cur1 < 3 ∧ parts.length > 1 then
        let idx : Int :=
          match indexOfList m origTitle.data with
          | some i => (i : Int)
          | none => -1
        jsSubstringFrom origTitle (idx + (m.length : Int))
      else cur1
  else curTitle

/-- Elements at even positions of a list (the text pieces of a JS split
with a captured separator). -/
def evenPositions {α : Type} : List α → List α
  | [] => []
  | [a] => [a]
  | a :: _ :: rest => a :: evenPositions rest

/-- Leftmost longest string of a list. -/
def longestString : List String → String
  | [] => ""
  | s :: rest =>
    let l := longestString rest
    if l.length > s.length then l else s

/-- Modelled from the spec's words for claim C4 (comparison definition,
not a translation of the source): split the title on all space-surrounded
separators, select the longest resulting segment, and when the selected
segment has fewer than 3 words use the text after the first separator
instead. -/
def specLongestSegmentCleanup (curTitle origTitle : String) : String :=
  match findSepMatch curTitle.data with
  | none => curTitle
  | some m =>
    let segments := (evenPositions (jsSplitTitleSeps curTitle.data)).map
      (fun l => (⟨l⟩ : String))
    let sel := longestString segments
    if wordCount sel < 3 then
      let idx : Int :=
        match indexOfList m origTitle.data with
        | some i => (i : Int)
        | none => -1
      jsSubstringFrom origTitle (idx + (m.length : Int))
    else sel

/-- The characters removed when approximating the raw title's word count
in the final guard (line 641: `/[\|\-–—\\\/»:]/g`). -/
def titleSepColonChars : List Char :=
  ['|', '-', '–', '—', '\\', '/', '»', ':']

/-- Model of the final revert guard of `_getArticleTitle` (lines 637--650):
normalize the current title; revert to the raw title exactly when the
normalized title has at most 4 words, its word count is smaller than the
raw title's separator-stripped word count minus 2, and the raw title has
more than 4 words. -/
def finalTitleGuard (curTitle origTitle : String) : String :=
  let cur1 : String := ⟨normalizeWsList (trimList curTitle.data)⟩
  let curTitleWordCount := wordCount cur1
  let origTitleWordCount :=
    wordCount ⟨origTitle.data.filter (fun c => !titleSepColonChars.contains c)⟩
  if curTitleWordCount ≤ 4 ∧ (curTitleWordCount : Int) < (origTitleWordCount : Int) - 2 then
    if wordCount origTitle > 4 then origTitle else cur1
  else cur1

/-! ## Tree-shape predicates of the sanitizer -/

/-- Model of `REGEXPS.hasContent.test` (`/\S$/`): the string ends with a
non-whitespace character. -/
def reHasContentTest (s : String) : Bool :=
  match s.data.getLast? with
  | some c => !isWsChar c
  | none => false

def PHRASING_ELEMS : List String :=
  ["ABBR", "AUDIO", "B", "BDO", "BR", "BUTTON", "CITE", "CODE", "DATA",
   "DATALIST", "DFN", "EM", "EMBED", "I", "IMG", "INPUT", "KBD", "LABEL",
   "MARK", "MATH", "METER", "NOSCRIPT", "OBJECT", "OUTPUT", "PROGRESS",
   "Q", "RUBY", "SAMP", "SCRIPT", "SELECT", "SMALL", "SPAN", "STRONG",
   "SUB", "SUP", "TEXTAREA", "TIME", "VAR", "WBR"]

mutual

/-- Model of `_isPhrasingContent`. -/
def isPhrasingContent : DNode → Bool
  | .text _ => true
  | .elem _ t _ cs =>
    PHRASING_ELEMS.contains t
      || ((t = "A" || t = "DEL" || t = "INS") && allPhrasing cs)

def allPhrasing : List DNode → Bool
  | [] => true
  | c :: cs => isPhrasingContent c && allPhrasing cs

end

mutual

/-- Model of `_isElementWithoutContent`: an element whose `textContent`
fails the `hasContent` test and whose element children are all `BR`/`HR`
or themselves without content. -/
def isElementWithoutContent : DNode → Bool
  | .text _ => false
  | .elem _ _ _ cs =>
    if reHasContentTest (textContentList cs) then false
    else !someChildSignificant cs

/-- Model of the inner `_someNode(node.children, child => child.tagName
!== 'BR' && child.tagName !== 'HR' && !_isElementWithoutContent(child))`
(text children are not in `node.children`). -/
def someChildSignificant : List DNode → Bool
  | [] => false
  | .text _ :: cs => someChildSignificant cs
  | .elem r t a cs' :: cs =>
    (t ≠ "BR" && t ≠ "HR" && !isElementWithoutContent (.elem r t a cs'))
      || someChildSignificant cs

end

/-- A text child with content ending in a non-whitespace character
(the `someNode` body of `_hasSingleTagInsideElement`). -/
def hasNonWsTextChild (cs : List DNode) : Bool :=
  cs.any (fun n =>
    match n with
    | .text s => reHasContentTest s
    | .elem _ _ _ _ => false)

/-- Model of `_hasSingleTagInsideElement(element, tag)`. -/
def hasSingleTagInsideElement (e : DNode) (tag : String) : Bool :=
  match e.elemChildren with
  | [c] => c.tagOf = tag && !hasNonWsTextChild e.childNodes
  | _ => false

mutual

/-- Model of `_isSingleImage`: an `IMG`, or a node with exactly one element
child (and no non-whitespace text) that is itself a single image. -/
def isSingleImage : DNode → Bool
  | .text _ => false
  | .elem _ t _ cs =>
    if t = "IMG" then true
    else if hasNonWsTextChild cs then false
    else singleElemChildImage cs

/-- Find the unique element child and recurse into it (the source's
`elementChild`; more than one element child fails). -/
def singleElemChildImage : List DNode → Bool
  | [] => false
  | .text _ :: rest => singleElemChildImage rest
  | .elem r t a cs :: rest =>
    if (rest.filter DNode.isElem).isEmpty then isSingleImage (.elem r t a cs)
    else false

end

/-! ## An `innerHTML` serializer (platform model)

Used only through the `_allowedVideoRegex.test(element.innerHTML)` check
on `OBJECT` elements; standard markup escaping, lowercase tags, all
elements serialized with closing tags. -/

def escTextChar (c : Char) : List Char :=
  if c = '&' then "&amp;".data
  else if c = '<' then "&lt;".data
  else if c = '>' then "&gt;".data
  else [c]

def escAttrChar (c : Char) : List Char :=
  if c = '&' then "&amp;".data
  else if c = '"' then "&quot;".data
  else [c]

def escText (s : String) : String :=
  ⟨s.data.foldr (fun c acc => escTextChar c ++ acc) []⟩

def escAttr (s : String) : String :=
  ⟨s.data.foldr (fun c acc => escAttrChar c ++ acc) []⟩

mutual

def serializeNode : DNode → String
  | .text s => escText s
  | .elem _ t a cs =>
    let tagL : String := ⟨lowerList t.data⟩
    "<" ++ tagL
      ++ String.join (a.map (fun p => " " ++ p.1 ++ "=\"" ++ escAttr p.2 ++ "\""))
      ++ ">" ++ serializeList cs ++ "</" ++ tagL ++ ">"

def serializeList : List DNode → String
  | [] => ""
  | c :: cs => serializeNode c ++ serializeList cs

end

/-- Model of `element.innerHTML`. -/
def innerHTML (n : DNode) : String :=
  serializeList n.childNodes

/-- The video-embed keep test of `_clean` and `_cleanConditionally`: some
attribute value matches the allowed-video pattern, or for `OBJECT`
elements the `innerHTML` does. -/
def isVideoEmbed (e : DNode) : Bool :=
  match e with
  | .text _ => false
  | .elem _ t a _ =>
    a.any (fun p => reVideosTest p.2) || (t = "OBJECT" && reVideosTest (innerHTML e))

/-! ## Data-table marking (`_markDataTables`, `_getRowAndColumnCount`) -/

/-- Model of `parseInt(s, 10)`; `none` models `NaN`. -/
def jsParseIntOpt (s : String) : Option Int :=
  let cs := s.data.dropWhile isWsChar
  let signAndRest : Int × List Char :=
    match cs with
    | '-' :: rest => (-1, rest)
    | '+' :: rest => (1, rest)
    | _ => (1, cs)
  let digits := signAndRest.2.takeWhile Char.isDigit
  if digits.isEmpty then none
  else some (signAndRest.1 * (digits.foldl (fun acc d => acc * 10 + ((d.toNat - 48 : Nat) : Int)) 0))

/-- Model of `parseInt(attr || "1", 10)` for `rowspan`/`colspan`. -/
def parseSpanAttr (a : Option String) : Option Int :=
  jsParseIntOpt (match a with
    | some v => if v = "" then "1" else v
    | none => "1")

/-- `NaN`-propagating addition on the modelled JS numbers. -/
def optAdd : Option Int → Option Int → Option Int
  | some a, some b => some (a + b)
  | _, _ => none

/-- `Math.max` with `NaN` propagation. -/
def optMax : Option Int → Option Int → Option Int
  | some a, some b => some (max a b)
  | _, _ => none

/-- Model of `_getRowAndColumnCount(table)` (rows, columns). -/
def getRowAndColumnCount (table : DNode) : Option Int × Option Int :=
  (getAllNodesWithTag table ["TR"]).foldl
    (fun acc tr =>
      let rows := optAdd acc.1 (parseSpanAttr (tr.getAttr "rowspan"))
      let columnsInThisRow :=
        tr.elemChildren.foldl
          (fun ci cell =>
            if cell.tagOf = "TD" || cell.tagOf = "TH" then
              optAdd ci (parseSpanAttr (cell.getAttr "colspan"))
            else ci)
          (some 0)
      (rows, optMax acc.2 columnsInThisRow))
    (some 0, some 0)

def DATA_TABLE_DESCENDANTS : List String :=
  ["COL", "COLGROUP", "TFOOT", "THEAD", "TH"]

/-- Model of the per-table decision of `_markDataTables`. -/
def markDataTable (table : DNode) : Bool :=
  let role := table.getAttr "role"
  if role = some "presentation" || role = some "none" then false
  else if table.getAttr "datatable" = some "0" then false
  else if (match table.getAttr "summary" with | some s => s != "" | none => false) then true
  else if (match (getAllNodesWithTag table ["CAPTION"]).head? with
           | some cap => reHasContentTest cap.textContent
           | none => false) then true
  else if DATA_TABLE_DESCENDANTS.any
      (fun tg => !(getAllNodesWithTag table [tg]).isEmpty) then true
  else if !(getAllNodesWithTag table ["TABLE"]).isEmpty then false
  else
    let rc := getRowAndColumnCount table
    if (match rc.1 with | some r => decide (r ≥ 10) | none => false)
        || (match rc.2 with | some c => decide (c > 4) | none => false) then true
    else
      match rc.1, rc.2 with
      | some r, some c => decide (r * c > 10)
      | _, _ => false

/-- Model of `_markDataTables(root)`: the refs of the descendant tables
classified as data tables (standing for the `_readabilityDataTable`
expando). -/
def markDataTables (root : DNode) : List Nat :=
  ((getAllNodesWithTag root ["TABLE"]).filter markDataTable).map DNode.refOf

/-! ## Lazy-image fixing (`_fixLazyImages`, `_isUrl`) -/

/-- Case-insensitive literal prefix test (for the `i`-flagged regex
literals). -/
def ciPrefix (pat : String) (cs : List Char) : Bool :=
  listIsPrefix (lowerList pat.data) (lowerList cs)

/-- Model of `imageExtensions.test` (`/\.(jpg|jpeg|png|webp|gif|bmp|svg)/i`):
a dot followed by one of the extensions, anywhere. -/
def imgExtScan : List Char → Bool
  | [] => false
  | c :: rest =>
    (c == '.' && ["jpg", "jpeg", "png", "webp", "gif", "bmp", "svg"].any
        (fun e => listIsPrefix e.data rest))
      || imgExtScan rest

def reImageExtTest (s : String) : Bool :=
  imgExtScan (lowerList s.data)

/-- One position of the (case-sensitive) srcset-shape test
`/\.(jpg|jpeg|png|webp)\s+\d/`: extension, then whitespace, then a digit. -/
def srcsetExtAt (t : List Char) : Bool :=
  ["jpg", "jpeg", "png", "webp"].any (fun e =>
    listIsPrefix e.data t &&
      (let t1 := t.drop e.length
       let ws := t1.takeWhile isWsChar
       !ws.isEmpty &&
         (match t1.drop ws.length with
          | d :: _ => d.isDigit
          | [] => false)))

def srcsetLikeScan : List Char → Bool
  | [] => false
  | c :: rest => (c == '.' && srcsetExtAt rest) || srcsetLikeScan rest

/-- Model of the inline `/\.(jpg|jpeg|png|webp)\s+\d/.test(attrValue)`
check of `_fixLazyImages` (no `i` flag in the source). -/
def reSrcsetLikeTest (s : String) : Bool :=
  srcsetLikeScan s.data

/-- Platform model of `new URL(str)` succeeding on an absolute URL (the
shapes `_isUrl` tries it on). -/
def modelUrlParseOk (s : String) : Bool :=
  (listIsPrefix "http://".data s.data &&
    (match s.data.drop 7 with | c :: _ => c ≠ '/' && !isWsChar c | [] => false))
  || (listIsPrefix "https://".data s.data &&
    (match s.data.drop 8 with | c :: _ => c ≠ '/' && !isWsChar c | [] => false))

/-- Model of `_isUrl(str)`: protocol-looking strings are checked with the
`URL` constructor, with a fallback to the literal prefix tests (the
`/^\/[^/]?/` alternative is equivalent to a leading slash). -/
def isUrl (s : String) : Bool :=
  if s = "" then false
  else
    ((jsStartsWith s "http:" || jsStartsWith s "https:" || jsStartsWith s "//")
        && modelUrlParseOk s)
      || jsStartsWith s "http://" || jsStartsWith s "https://"
      || jsStartsWith s "ftp://" || jsStartsWith s "/" || jsStartsWith s "#"

/-- Model of `REGEXPS.b64DataUrl` matching at the start of the string:
returns the length of the whole match and the captured MIME type
(`/^data:\s*([^\s;,]+)\s*;\s*base64\s*,/i`). -/
def b64DataUrlMatch (s : String) : Option (Nat × String) :=
  let cs := s.data
  if ciPrefix "data:" (cs.take 5) && cs.length ≥ 5 then
    let rest1 := cs.drop 5
    let ws1 := rest1.takeWhile isWsChar
    let rest2 := rest1.drop ws1.length
    let mime := rest2.takeWhile (fun c => !isWsChar c && c ≠ ';' && c ≠ ',')
    if mime.isEmpty then none
    else
      let rest3 := rest2.drop mime.length
      let ws2 := rest3.takeWhile isWsChar
      match rest3.drop ws2.length with
      | ';' :: rest5 =>
        let ws3 := rest5.takeWhile isWsChar
        let rest6 := rest5.drop ws3.length
        if ciPrefix "base64" (rest6.take 6) && rest6.length ≥ 6 then
          let rest7 := rest6.drop 6
          let ws4 := rest7.takeWhile isWsChar
          match rest7.drop ws4.length with
          | ',' :: _ =>
            some (5 + ws1.length + mime.length + ws2.length + 1 + ws3.length
                    + 6 + ws4.length + 1, ⟨mime⟩)
          | _ => none
        else none
      | _ => none
  else none

/-- The attribute-scanning fold of `_fixLazyImages` (lines 2240--2258):
accumulates `(potentialSrc, potentialSrcset)` over the attribute list. -/
def lazyScanStep (st : Option String × Option String) (p : String × String) :
    Option String × Option String :=
  let attrName : String := ⟨lowerList p.1.data⟩
  let attrValue := p.2
  if attrValue = "" || attrName = "src" || attrName = "srcset" then st
  else
    let st1 :=
      if reSrcsetLikeTest attrValue then
        (st.1, if st.2.isNone then some attrValue else st.2)
      else if reImageExtTest attrValue && !attrValue.data.contains ' ' && isUrl attrValue then
        (if st.1.isNone then some attrValue else st.1, st.2)
      else st
    if (containsList "lazy".data attrName.data || containsList "load".data attrName.data)
        && reImageExtTest attrValue then
      if st1.1.isNone && st1.2.isNone && isUrl attrValue then (some attrValue, st1.2)
      else st1
    else st1

/-- The per-element body of `_fixLazyImages` applied to one
`IMG`/`PICTURE`/`FIGURE` element: the updated attribute list and the
children to append (the `IMG` created for a sourceless `FIGURE`; it
carries ref 0 — fresh identities are not tracked, and the branch does not
fire on the inputs evaluated here). -/
def fixLazyImageParts (r : Nat) (t : String) (a : List (String × String))
    (cs : List DNode) : List (String × String) × List DNode :=
    let srcStr := (attrsGet "src" a).getD ""
    let srcsetStr := (attrsGet "srcset" a).getD ""
    let hasRealSrc := (srcStr ≠ "" && (b64DataUrlMatch srcStr).isNone) || srcsetStr ≠ ""
    let canRemovePlaceholder :=
      if srcStr ≠ "" then
        match b64DataUrlMatch srcStr with
        | some mc =>
          if mc.2 ≠ "image/svg+xml" && srcStr.length - mc.1 < 150 then
            a.any (fun p => p.1 ≠ "src" && reImageExtTest p.2)
          else false
        | none => false
      else false
    let a1 := if canRemovePlaceholder then attrsRemove "src" a else a
    let scan := a1.foldl lazyScanStep (none, none)
    let apply := !hasRealSrc || canRemovePlaceholder
    let a2 :=
      if apply then
        match scan.2 with
        | some v => attrsSet "srcset" v a1
        | none => a1
      else a1
    let a3 :=
      if apply then
        match scan.1 with
        | some v => if (attrsGet "srcset" a2).getD "" = "" then attrsSet "src" v a2 else a2
        | none => a2
      else a2
    let extra :=
      if t = "FIGURE"
          && (getAllNodesWithTag (.elem r t a3 cs) ["IMG", "PICTURE"]).isEmpty
          && (scan.2.isSome || scan.1.isSome) then
        [DNode.elem 0 "IMG"
          ((match scan.2 with | some v => [("srcset", v)] | none => [])
            ++ (match scan.1 with | some v => [("src", v)] | none => [])) []]
      else []
    (a3, extra)

mutual

/-- Model of `_fixLazyImages(root)`: the per-element body applied to every
descendant `IMG`/`PICTURE`/`FIGURE` (the source walks a static list with
local updates; the structural top-down map coincides with it — an `IMG`
appended into a `FIGURE` is not in the static list and is left as
created). -/
def fixLazyImages : DNode → DNode
  | .text s => .text s
  | .elem r t a cs =>
    if ["IMG", "PICTURE", "FIGURE"].contains t then
      let parts := fixLazyImageParts r t a cs
      .elem r t parts.1 (fixLazyImagesList cs ++ parts.2)
    else .elem r t a (fixLazyImagesList cs)

def fixLazyImagesList : List DNode → List DNode
  | [] => []
  | c :: rest => fixLazyImages c :: fixLazyImagesList rest

end

/-! ## Style cleaning (`_cleanStyles`) -/

def PRESENTATIONAL_ATTRIBUTES : List String :=
  ["align", "background", "bgcolor", "border", "cellpadding",
   "cellspacing", "frame", "hspace", "rules", "style", "valign", "vspace"]

def DEPRECATED_SIZE_ATTRIBUTE_ELEMS : List String :=
  ["TABLE", "TH", "TD", "HR", "PRE"]

mutual

/-- Model of `_cleanStyles(e)`: removes presentational attributes (and
deprecated size attributes on the listed elements) recursively over the
element children, skipping `svg` subtrees entirely. -/
def cleanStyles : DNode → DNode
  | .text s => .text s
  | .elem r t a cs =>
    if (⟨lowerList t.data⟩ : String) = "svg" then .elem r t a cs
    else
      let a1 := PRESENTATIONAL_ATTRIBUTES.foldl (fun acc n => attrsRemove n acc) a
      let a2 :=
        if DEPRECATED_SIZE_ATTRIBUTE_ELEMS.contains t then
          attrsRemove "height" (attrsRemove "width" a1)
        else a1
      .elem r t a2 (cleanStylesList cs)

def cleanStylesList : List DNode → List DNode
  | [] => []
  | c :: rest => cleanStyles c :: cleanStylesList rest

end

/-! ## Tag cleaning (`_clean`) and share-widget cleaning
(`_cleanMatchedNodes`) -/

mutual

/-- Descend into a kept node during `_clean(e, tag)`. -/
def cleanTagKeep (tag : String) (isEmbedTag : Bool) : DNode → DNode
  | .text s => .text s
  | .elem r t a cs => .elem r t a (cleanTagList tag isEmbedTag cs)

/-- Removal pass of `_clean(e, tag)` over the children: elements with the
given tag are removed, except embed tags that pass the video keep test
(whose subtrees are still processed). -/
def cleanTagList (tag : String) (isEmbedTag : Bool) : List DNode → List DNode
  | [] => []
  | c :: rest =>
    if c.isElem && c.tagOf = tag && !(isEmbedTag && isVideoEmbed c) then
      cleanTagList tag isEmbedTag rest
    else cleanTagKeep tag isEmbedTag c :: cleanTagList tag isEmbedTag rest

end

/-- Model of `_clean(e, tag)` (tag given uppercase): removes all matching
descendant elements, keeping allowed video embeds.  The source iterates a
static list backwards; the embedding's one-pass removal coincides on
inputs where an element's keep test does not depend on other matching
elements' removal (all inputs evaluated here). -/
def clean (root : DNode) (tag : String) : DNode :=
  let isEmbedTag := ["OBJECT", "EMBED", "IFRAME"].contains tag
  match root with
  | .text s => .text s
  | .elem r t a cs => .elem r t a (cleanTagList tag isEmbedTag cs)

/-- The filter of the share-widget cleaning in `_prepArticle`: class/id
match the share pattern and the text is shorter than the threshold (500). -/
def shareFilterMatch (e : DNode) : Bool :=
  reShareElementsTest (e.className ++ " " ++ e.idStr)
    && e.textContent.length < DEFAULT_CHAR_THRESHOLD

mutual

/-- Descend into a kept node during the share-widget cleaning. -/
def cleanShareKeep : DNode → DNode
  | .text s => .text s
  | .elem r t a cs => .elem r t a (cleanShareList cs)

/-- Model of `_cleanMatchedNodes`' top-down traversal with the share
filter: a matching element is removed with its whole subtree, otherwise
its children are examined (text nodes never match the filter). -/
def cleanShareList : List DNode → List DNode
  | [] => []
  | c :: rest =>
    if c.isElem && shareFilterMatch c then cleanShareList rest
    else cleanShareKeep c :: cleanShareList rest

end

/-- The share-widget stage of `_prepArticle`: `_cleanMatchedNodes` run on
each top-level child of the container (the children themselves are not
tested, only their descendants). -/
def cleanShareTopLevel (root : DNode) : DNode :=
  match root with
  | .text s => .text s
  | .elem r t a cs =>
    .elem r t a (cs.map (fun c =>
      match c with
      | .text s => .text s
      | .elem r' t' a' cs' => .elem r' t' a' (cleanShareList cs')))

/-! ## Header cleaning (`_cleanHeaders`, `_headerDuplicatesTitle`) -/

/-- Model of `_headerDuplicatesTitle(node)` against a known article
title. -/
def headerDuplicatesTitle (articleTitle : String) (e : DNode) : Bool :=
  if e.tagOf ≠ "H1" && e.tagOf ≠ "H2" then false
  else if articleTitle = "" then false
  else
    let heading := getInnerText e false
    let similarity := textSimilarity articleTitle heading
    similarity > (3/4 : ℚ)
      || (similarity > (1/2 : ℚ)
            && (heading.length : ℚ) * (3/2) < (articleTitle.length : ℚ))

mutual

/-- Descend into a kept node during `_cleanHeaders`. -/
def cleanHeadersKeep (flags : Nat) (articleTitle : String) : DNode → DNode
  | .text s => .text s
  | .elem r t a cs => .elem r t a (cleanHeadersList flags articleTitle cs)

/-- Removal pass of `_cleanHeaders`: descendant `H1`/`H2` elements with a
negative class weight, or duplicating the (truthy) article title, are
removed. -/
def cleanHeadersList (flags : Nat) (articleTitle : String) : List DNode → List DNode
  | [] => []
  | c :: rest =>
    if (c.tagOf = "H1" || c.tagOf = "H2")
        && (getClassWeight flags c < 0
              || (articleTitle ≠ "" && headerDuplicatesTitle articleTitle c)) then
      cleanHeadersList flags articleTitle rest
    else cleanHeadersKeep flags articleTitle c :: cleanHeadersList flags articleTitle rest

end

def cleanHeaders (flags : Nat) (articleTitle : String) (root : DNode) : DNode :=
  match root with
  | .text s => .text s
  | .elem r t a cs => .elem r t a (cleanHeadersList flags articleTitle cs)

/-! ## Remaining `_prepArticle` stages -/

/-- Model of `_setNodeTag(node, tag)`: same attributes and children with
the new (uppercase) tag.  The source creates a fresh element object; the
embedding keeps the `ref` as its identity bookkeeping. -/
def setNodeTagKeep (newTag : String) : DNode → DNode
  | .text s => .text s
  | .elem r _ a cs => .elem r newTag a cs

mutual

/-- Retagging of one node for `_replaceNodeTags` (used for `H1` → `H2`). -/
def replaceTagsNode (fromTag toTag : String) : DNode → DNode
  | .text s => .text s
  | .elem r t a cs =>
    .elem r (if t = fromTag then toTag else t) a (replaceTagsList fromTag toTag cs)

/-- Retagging pass of `_replaceNodeTags`: every descendant element with
the old tag is retagged in place. -/
def replaceTagsList (fromTag toTag : String) : List DNode → List DNode
  | [] => []
  | c :: rest => replaceTagsNode fromTag toTag c :: replaceTagsList fromTag toTag rest

end

def replaceTags (fromTag toTag : String) (root : DNode) : DNode :=
  match root with
  | .text s => .text s
  | .elem r t a cs => .elem r t a (replaceTagsList fromTag toTag cs)

/-- The removal test on paragraphs (lines 855--858): no
`IMG`/`EMBED`/`OBJECT`/`IFRAME` descendants and empty (falsy) inner
text. -/
def isRemovableParagraph (p : DNode) : Bool :=
  (getAllNodesWithTag p ["IMG", "EMBED", "OBJECT", "IFRAME"]).length = 0
    && getInnerText p false = ""

mutual

def removeEmptyParagraphsKeep : DNode → DNode
  | .text s => .text s
  | .elem r t a cs => .elem r t a (removeEmptyParagraphsList cs)

def removeEmptyParagraphsList : List DNode → List DNode
  | [] => []
  | c :: rest =>
    if c.tagOf = "P" && isRemovableParagraph c then removeEmptyParagraphsList rest
    else removeEmptyParagraphsKeep c :: removeEmptyParagraphsList rest

end

def removeEmptyParagraphs (root : DNode) : DNode :=
  match root with
  | .text s => .text s
  | .elem r t a cs => .elem r t a (removeEmptyParagraphsList cs)

/-- Model of `_nextNode` over a sibling list: the first following sibling
that is an element or a non-whitespace text node. -/
def nextNonWsSibling : List DNode → Option DNode
  | [] => none
  | .elem r t a cs :: _ => some (.elem r t a cs)
  | .text s :: rest => if isAllWsString s then nextNonWsSibling rest else some (.text s)

mutual

/-- Whether the `BR` with the given ref is followed (whitespace skipped)
by a `P` element, in the current tree. -/
def brNextIsP (r : Nat) : DNode → Option Bool
  | .text _ => none
  | .elem _ _ _ cs => brNextIsPList r cs

def brNextIsPList (r : Nat) : List DNode → Option Bool
  | [] => none
  | .text _ :: rest => brNextIsPList r rest
  | .elem r' t' a' cs' :: rest =>
    if r' = r then
      some (match nextNonWsSibling rest with
            | some n => n.tagOf = "P"
            | none => false)
    else
      match brNextIsP r (.elem r' t' a' cs') with
      | some b => some b
      | none => brNextIsPList r rest

end

/-- Model of the `<br>`-before-`<p>` removal stage (lines 860--868): the
static list of `BR` refs is processed in document order on the evolving
tree. -/
def removeBrsBeforeP (root : DNode) : DNode :=
  ((getAllNodesWithTag root ["BR"]).map DNode.refOf).foldl
    (fun t r => if brNextIsP r t = some true then removeByRef r t else t) root

mutual

/-- Replace every element with the given ref by the given node (on the
unique-ref trees used here: `replaceChild` at that node). -/
def replaceByRef (r : Nat) (new : DNode) : DNode → DNode
  | .text s => .text s
  | .elem r' t a cs => .elem r' t a (replaceByRefList r new cs)

def replaceByRefList (r : Nat) (new : DNode) : List DNode → List DNode
  | [] => []
  | .text s :: rest => .text s :: replaceByRefList r new rest
  | .elem r' t a cs :: rest =>
    if r' = r then new :: replaceByRefList r new rest
    else replaceByRef r new (.elem r' t a cs) :: replaceByRefList r new rest

end

/-- One table of the single-cell-table collapsing stage (lines 870--886):
a table holding exactly one row with exactly one cell is replaced by that
cell, retagged `P` when all its child nodes are phrasing content, else
`DIV`. -/
def singleCellTableStep (root : DNode) (r : Nat) : DNode :=
  match findByRef r root with
  | none => root
  | some table =>
    let tbody :=
      if hasSingleTagInsideElement table "TBODY" then table.elemChildren.getD 0 table
      else table
    if hasSingleTagInsideElement tbody "TR" then
      let row := tbody.elemChildren.getD 0 tbody
      if hasSingleTagInsideElement row "TD" then
        let cell := row.elemChildren.getD 0 row
        let newTag := if allPhrasing cell.childNodes then "P" else "DIV"
        replaceByRef r (setNodeTagKeep newTag cell) root
      else root
    else root

def collapseSingleCellTables (root : DNode) : DNode :=
  ((getAllNodesWithTag root ["TABLE"]).map DNode.refOf).foldl singleCellTableStep root

/-! ## Conditional cleaning (`_cleanConditionally`, lines 2323--2503) -/

/-- The tags of the single `querySelectorAll` of `_cleanConditionally`
(the `MAPPING` object, in order). -/
def CLEAN_COND_SELECTOR_TAGS : List String :=
  ["P", "IMG", "LI", "INPUT", "H1", "H2", "H3", "H4", "H5", "H6",
   "OBJECT", "EMBED", "IFRAME", "SPAN", "TD", "DIV", "BLOCKQUOTE", "A"]

/-- The `textishTags` set of `_cleanConditionally`. -/
def TEXTISH_TAGS : List String :=
  ["SPAN", "LI", "TD", "P", "DIV", "BLOCKQUOTE", "A"]

/-- Model of the `shouldRemoveNode` closure: the eight removal
disjuncts. -/
def shouldRemoveNode (isFigureAncestor isList : Bool)
    (imgCount pCount liCount inputCount contentLength embedCount videoEmbedCount : Nat)
    (weight : Int) (liProportion headingDensity linkDensity textDensity ldm : ℚ) : Bool :=
  (!isFigureAncestor && decide (imgCount > 1)
    && (decide (pCount = 0) || decide ((pCount : ℚ) / (imgCount : ℚ) < 1/2)))
  || (!isList && decide (liCount > 0) && decide (pCount = 0)
    && decide (liProportion > (1/2 : ℚ)))
  || decide (inputCount > pCount / 3)
  || (decide (contentLength < 25) && (decide (imgCount = 0) || decide (imgCount > 2))
    && !isFigureAncestor && !isList && decide (headingDensity < (9/10 : ℚ))
    && decide (linkDensity > (1/5 : ℚ)))
  || (!isList && decide (weight < 25) && decide (linkDensity > (1/5 : ℚ) + ldm))
  || (decide (weight ≥ 25) && decide (linkDensity > (1/2 : ℚ) + ldm))
  || ((decide (embedCount = 1) && decide (contentLength < 75) && decide (imgCount = 0))
    || decide (embedCount > 1))
  || (decide (imgCount = 0) && decide (videoEmbedCount = 0)
    && decide (textDensity < (1/10 : ℚ)) && decide (contentLength < 100))

/-- The image-list exception (lines 2476--2494): a list whose element
children are exactly `liCount` `LI` items, each a single standalone image,
with the image count equal to the item count, is kept. -/
def imageListException (node : DNode) (liCount imgCount : Nat) : Bool :=
  decide (node.elemChildren.length = liCount) && decide (liCount ≠ 0)
    && node.elemChildren.all (fun item => decide (item.tagOf = "LI") && isSingleImage item)
    && decide (imgCount = liCount)

/-- One candidate of `_cleanConditionally` (evaluated on the current tree;
a ref no longer in the tree was removed with an ancestor, and its
evaluation on the detached subtree has no effect — the `!node.parentNode`
continue). -/
def cleanCondStep (flags : Nat) (ldm : ℚ) (dataTables : List Nat)
    (root : DNode) (r : Nat) : DNode :=
  match findByRef r root with
  | none => root
  | some node =>
    let isList := node.tagOf = "UL" || node.tagOf = "OL"
    if node.tagOf = "TABLE" && dataTables.contains r then root
    else if hasAncestorTag root r "TABLE" (-1) (fun n => dataTables.contains n.refOf) then root
    else if hasAncestorTag root r "CODE" then root
    else if (getAllNodesWithTag node ["TABLE"]).any (fun n => dataTables.contains n.refOf) then
      root
    else
      let weight := getClassWeight flags node
      if weight < 0 then removeByRef r root
      else
        let elementsInside := getAllNodesWithTag node CLEAN_COND_SELECTOR_TAGS
        let pCount := (elementsInside.filter (fun e => e.tagOf = "P")).length
        let imgCount := (elementsInside.filter (fun e => e.tagOf = "IMG")).length
        let liCount := (elementsInside.filter (fun e => e.tagOf = "LI")).length
        let inputCount := (elementsInside.filter (fun e => e.tagOf = "INPUT")).length
        let textDensityLength : ℚ := elementsInside.foldl
          (fun acc e =>
            if TEXTISH_TAGS.contains e.tagOf then acc + ((getInnerText e).length : ℚ)
            else acc) 0
        let linkLength : ℚ := elementsInside.foldl
          (fun acc e =>
            if e.tagOf = "A" then acc + ((getInnerText e).length : ℚ) * linkCoefficient e
            else acc) 0
        let videoEmbedCount := (elementsInside.filter (fun e =>
          ["OBJECT", "EMBED", "IFRAME"].contains e.tagOf && isVideoEmbed e)).length
        let embedCount := (elementsInside.filter (fun e =>
          ["OBJECT", "EMBED", "IFRAME"].contains e.tagOf && !isVideoEmbed e)).length
        let headingTextLength := elementsInside.foldl
          (fun acc e =>
            if ["H1", "H2", "H3", "H4", "H5", "H6"].contains e.tagOf then
              acc + (getInnerText e).length
            else acc) 0
        let innerText := getInnerText node
        let contentLength := innerText.length
        let charCountComma := getCharCount node
        if contentLength > 0 && contentLength < 50
            && (reAdWordsTest innerText || reLoadingWordsTest innerText) then
          removeByRef r root
        else if charCountComma < 10 then
          -- `textContentByTag` is declared in the source but never assigned
          -- to, so `(textContentByTag.li || "")` is always the empty string.
          let textContentByTagLi : String := ""
          let liProportion : ℚ :=
            if contentLength > 0 then ((textContentByTagLi.length : ℚ) / (contentLength : ℚ))
            else 0
          let headingDensity : ℚ :=
            if contentLength > 0 then (headingTextLength : ℚ) / (contentLength : ℚ) else 0
          if videoEmbedCount > 0 && embedCount = 0 && imgCount = 0 then root
          else
            let linkDensity : ℚ :=
              if contentLength > 0 then linkLength / (contentLength : ℚ) else 0
            let textDensity : ℚ :=
              if contentLength > 0 then textDensityLength / (contentLength : ℚ) else 0
            let isFigureAncestor := hasAncestorTag root r "FIGURE"
            let haveToRemove0 := shouldRemoveNode isFigureAncestor isList imgCount pCount
              liCount inputCount contentLength embedCount videoEmbedCount weight
              liProportion headingDensity linkDensity textDensity ldm
            let haveToRemove :=
              if isList && haveToRemove0 then
                if imageListException node liCount imgCount then false else haveToRemove0
              else haveToRemove0
            if haveToRemove then removeByRef r root else root
        else root

/-- Model of `_cleanConditionally(e, tag)` (tag given uppercase): a no-op
unless the `CleanConditionally` flag is active; otherwise the static list
of matching descendants is processed in document order on the evolving
tree. -/
def cleanConditionally (flags : Nat) (ldm : ℚ) (dataTables : List Nat)
    (root : DNode) (tag : String) : DNode :=
  if !flagIsActive flags FLAG_CLEAN_CONDITIONALLY then root
  else
    ((getAllNodesWithTag root [tag]).map DNode.refOf).foldl
      (cleanCondStep flags ldm dataTables) root

/-! ## The article sanitizer (`_prepArticle`, lines 807--887) -/

/-- Model of `_prepArticle(articleContent)`: the full sanitize pass, in the
source's stage order.  `articleTitle` is the known `_articleTitle` used by
`_cleanHeaders` (`""` when absent); `ldm` is the configured
`_linkDensityModifier` (default 0). -/
def prepArticle (flags : Nat) (ldm : ℚ) (articleTitle : String)
    (articleContent : DNode) : DNode :=
  let t0 := cleanStyles articleContent
  let dataTables := markDataTables t0
  let t1 := fixLazyImages t0
  let t2 := cleanConditionally flags ldm dataTables t1 "FORM"
  let t3 := cleanConditionally flags ldm dataTables t2 "FIELDSET"
  let t4 := clean t3 "OBJECT"
  let t5 := clean t4 "EMBED"
  let t6 := clean t5 "FOOTER"
  let t7 := clean t6 "LINK"
  let t8 := clean t7 "ASIDE"
  let t9 := cleanShareTopLevel t8
  let t10 := clean t9 "IFRAME"
  let t11 := clean t10 "INPUT"
  let t12 := clean t11 "TEXTAREA"
  let t13 := clean t12 "SELECT"
  let t14 := clean t13 "BUTTON"
  let t15 := cleanHeaders flags articleTitle t14
  let t16 := cleanConditionally flags ldm dataTables t15 "TABLE"
  let t17 := cleanConditionally flags ldm dataTables t16 "UL"
  let t18 := cleanConditionally flags ldm dataTables t17 "DIV"
  let t19 := replaceTags "H1" "H2" t18
  let t20 := removeEmptyParagraphs t19
  let t21 := removeBrsBeforeP t20
  collapseSingleCellTables t21


/-! ## Relative-URI fixing (`_fixRelativeUris`, lines 407--484) -/

/-- The URI environment of `_fixRelativeUris`.  `resolve` models
`new URL(uri, baseURI).href` (`none` models the constructor throwing, the
source's catch branch); `protocol` models `new URL(baseURI).protocol`
(scheme with trailing colon). -/
structure UriEnv where
  baseURI : String
  documentURI : String
  protocol : String
  resolve : String → Option String

/-- Model of the `toAbsoluteURI` closure: empty URIs are returned as is;
hash URIs are left alone when the base URI equals the document URI;
protocol-relative URIs receive the base URI's protocol; the result is
resolved against the base, and on resolution failure the (possibly
protocol-prefixed) URI is passed through unchanged. -/
def toAbsoluteURI (env : UriEnv) (uri : String) : String :=
  if uri = "" then uri
  else if env.baseURI = env.documentURI && jsStartsWith uri "#" then uri
  else
    let uri1 := if jsStartsWith uri "//" then env.protocol ++ uri else uri
    (env.resolve uri1).getD uri1

mutual

/-- The anchor pass of `_fixRelativeUris`: anchors with a `javascript:`
href are replaced by their text (single-text-child case) or by a `SPAN`
taking their children (the span is a fresh element, carried with ref 0);
other anchors with a non-empty href get it rewritten through
`toAbsoluteURI`.  The source iterates a static list in document order;
nested anchors remain in the list after an outer replacement, so the
structural top-down recursion coincides with it. -/
def fixAnchorsNode (env : UriEnv) : DNode → DNode
  | .text s => .text s
  | .elem r t a cs =>
    if t = "A" then
      match attrsGet "href" a with
      | some href =>
        if href ≠ "" then
          if jsStartsWith href "javascript:" then
            match cs with
            | [.text s] => .text s
            | _ => .elem 0 "SPAN" [] (fixAnchorsList env cs)
          else .elem r t (attrsSet "href" (toAbsoluteURI env href) a) (fixAnchorsList env cs)
        else .elem r t a (fixAnchorsList env cs)
      | none => .elem r t a (fixAnchorsList env cs)
    else .elem r t a (fixAnchorsList env cs)

def fixAnchorsList (env : UriEnv) : List DNode → List DNode
  | [] => []
  | c :: rest => fixAnchorsNode env c :: fixAnchorsList env rest

end

/-- One attempted match of `REGEXPS.srcsetUrl`
(`/(\S+)(\s+[\d.]+[xw])?(\s*(?:,|$))/g`) at the current position with
candidate length `k` for the greedy `(\S+)` group: returns
`(p1, p2, p3, rest)` on success.  The descriptor group is tried greedily
first and dropped on tail failure, mirroring the regex backtracking
order. -/
def srcsetTryK (cs : List Char) (k : Nat) :
    Option (List Char × List Char × List Char × List Char) :=
  let p1 := cs.take k
  let afterP1 := cs.drop k
  let ws := afterP1.takeWhile isWsChar
  let descAttempt : Option (List Char × List Char) :=
    if ws.isEmpty then none
    else
      let afterWs := afterP1.drop ws.length
      let digits := afterWs.takeWhile (fun c => c.isDigit || c == '.')
      if digits.isEmpty then none
      else
        match afterWs.drop digits.length with
        | c :: rest2 => if c == 'x' || c == 'w' then some (ws ++ digits ++ [c], rest2) else none
        | [] => none
  let tryTail : List Char → Option (List Char × List Char) := fun t =>
    let ws2 := t.takeWhile isWsChar
    match t.drop ws2.length with
    | ',' :: rest3 => some (ws2 ++ [','], rest3)
    | [] => some (ws2, [])
    | _ => none
  match descAttempt with
  | some pr =>
    match tryTail pr.2 with
    | some tl => some (p1, pr.1, tl.1, tl.2)
    | none =>
      match tryTail afterP1 with
      | some tl => some (p1, [], tl.1, tl.2)
      | none => none
  | none =>
    match tryTail afterP1 with
    | some tl => some (p1, [], tl.1, tl.2)
    | none => none

/-- Backtracking over the `(\S+)` length, longest first. -/
def srcsetTryDown (cs : List Char) : Nat → Option (List Char × List Char × List Char × List Char)
  | 0 => none
  | k + 1 =>
    match srcsetTryK cs (k + 1) with
    | some res => some res
    | none => srcsetTryDown cs k

/-- A `srcsetUrl` match starting exactly at the current position. -/
def srcsetFindAt (cs : List Char) :
    Option (List Char × List Char × List Char × List Char) :=
  srcsetTryDown cs (cs.takeWhile (fun c => !isWsChar c)).length

/-- The global-replace scan of `srcset.replace(REGEXPS.srcsetUrl, ...)`
with the callback `toAbsoluteURI(p1) + (p2 || "") + p3`.  The fuel is the
remaining length (every match consumes at least one character). -/
def srcsetReplaceFuel (env : UriEnv) : Nat → List Char → List Char
  | 0, cs => cs
  | _ + 1, [] => []
  | n + 1, c :: rest =>
    match srcsetFindAt (c :: rest) with
    | some m => (toAbsoluteURI env (⟨m.1⟩ : String)).data ++ m.2.1 ++ m.2.2.1
        ++ srcsetReplaceFuel env n m.2.2.2
    | none => c :: srcsetReplaceFuel env n rest

def jsSrcsetReplace (env : UriEnv) (s : String) : String :=
  ⟨srcsetReplaceFuel env s.data.length s.data⟩

/-- The media tags queried by the second pass of `_fixRelativeUris`. -/
def MEDIA_TAGS : List String :=
  ["IMG", "PICTURE", "FIGURE", "VIDEO", "AUDIO", "SOURCE"]

/-- The attribute rewrites of one media element: non-empty `src` and
`poster` values through `toAbsoluteURI`, non-empty `srcset` values through
the regex replace. -/
def fixMediaAttrs (env : UriEnv) (a : List (String × String)) : List (String × String) :=
  let a1 :=
    match attrsGet "src" a with
    | some v => if v ≠ "" then attrsSet "src" (toAbsoluteURI env v) a else a
    | none => a
  let a2 :=
    match attrsGet "poster" a1 with
    | some v => if v ≠ "" then attrsSet "poster" (toAbsoluteURI env v) a1 else a1
    | none => a1
  match attrsGet "srcset" a2 with
  | some v => if v ≠ "" then attrsSet "srcset" (jsSrcsetReplace env v) a2 else a2
  | none => a2

mutual

/-- The media pass of `_fixRelativeUris` (a static list of local attribute
updates; the structural map coincides with it). -/
def fixMediaNode (env : UriEnv) : DNode → DNode
  | .text s => .text s
  | .elem r t a cs =>
    .elem r t (if MEDIA_TAGS.contains t then fixMediaAttrs env a else a)
      (fixMediaList env cs)

def fixMediaList (env : UriEnv) : List DNode → List DNode
  | [] => []
  | c :: rest => fixMediaNode env c :: fixMediaList env rest

end

/-- Model of `_fixRelativeUris(articleContent)`: the anchor pass, then the
media pass on its result.  (The container root is a `DIV` in every use, so
including it in the structural maps is immaterial.) -/
def fixRelativeUris (env : UriEnv) (articleContent : DNode) : DNode :=
  fixMediaNode env (fixAnchorsNode env articleContent)

/-! ## A concrete URL-resolution model (platform model)

`modelResolve` implements WHATWG resolution for the URI shapes exercised
in this development: absolute `scheme://host/path` bases, and references
that are absolute, protocol-relative, root-relative, or plain
path-relative (no dot segments).  Scheme case is preserved (no
normalization). -/

def schemeRestOk : List Char → Bool
  | [] => false
  | c :: rest =>
    if c == ':' then true
    else (c.isAlpha || c.isDigit || c == '+' || c == '-' || c == '.') && schemeRestOk rest

/-- Whether the reference carries its own scheme. -/
def hasUriScheme (s : String) : Bool :=
  match s.data with
  | c :: rest => c.isAlpha && schemeRestOk rest
  | [] => false

def modelResolve (base uri : String) : Option String :=
  match indexOfList "://".data base.data with
  | none => none
  | some i =>
    let schemePart := base.data.take i
    let afterScheme := base.data.drop (i + 3)
    let host := afterScheme.takeWhile (fun c => c ≠ '/')
    if host.isEmpty then none
    else
      let origin := schemePart ++ "://".data ++ host
      let path := afterScheme.drop host.length
      if hasUriScheme uri then some uri
      else if jsStartsWith uri "//" then some ((⟨schemePart⟩ : String) ++ ":" ++ uri)
      else if jsStartsWith uri "/" then some ((⟨origin⟩ : String) ++ uri)
      else if uri = "" then some base
      else
        let dir := (path.reverse.dropWhile (fun c => c ≠ '/')).reverse
        let dir1 := if dir.isEmpty then ['/'] else dir
        some ((⟨origin ++ dir1⟩ : String) ++ uri)

/-- The concrete `UriEnv` built from a document's base and document
URIs over `modelResolve`. -/
def modelUriEnv (base docURI : String) : UriEnv :=
  { baseURI := base
    documentURI := docURI
    protocol := (⟨base.data.takeWhile (fun c => c ≠ ':')⟩ : String) ++ ":"
    resolve := fun uri => modelResolve base uri }


/-! ## Statement-support definitions -/

def DNode.attrsOf : DNode → List (String × String)
  | .text _ => []
  | .elem _ _ a _ => a

/-- The (ref, tag, attrs) projection of an element node. -/
def elemEntry (e : DNode) : Nat × String × List (String × String) :=
  (e.refOf, e.tagOf, e.attrsOf)

/-- The (ref, tag, attrs) triples of all element nodes of a tree. -/
def elemsList (t : DNode) : List (Nat × String × List (String × String)) :=
  (allElems t).map elemEntry

/-- The entrywise effect of the media pass on (ref, tag, attrs) triples. -/
def mediaEntryMap (env : UriEnv) (p : Nat × String × List (String × String)) :
    Nat × String × List (String × String) :=
  (p.1, p.2.1, if MEDIA_TAGS.contains p.2.1 then fixMediaAttrs env p.2.2 else p.2.2)

/-- A `javascript:`-prefixed URI string. -/
def jsPrefixed (s : String) : Bool :=
  jsStartsWith s "javascript:"

/-- An anchor element whose href begins with `javascript:`. -/
def isJsAnchor (e : DNode) : Bool :=
  e.tagOf = "A" && jsPrefixed ((e.getAttr "href").getD "")

def hasJsAnchor (t : DNode) : Bool :=
  (allElems t).any isJsAnchor

/-- The resolver-safety hypothesis of the `javascript:`-anchor invariant:
rewriting a non-`javascript:` URI through `toAbsoluteURI` never produces a
`javascript:`-prefixed value.  (It can fail for exotic environments, e.g.
a base URI whose scheme is itself `javascript:`.) -/
def UriEnv.jsSafe (env : UriEnv) : Prop :=
  ∀ h : String, jsPrefixed h = false → jsPrefixed (toAbsoluteURI env h) = false

/-- Modelled from claim C5's words (comparison definition, not a
translation of the source): the trimmed result has at most 4 words, is at
least 2 words shorter than the raw title counting the raw title's words
with separators removed, and the raw title has more than 4 words. -/
def c5ClaimCondition (curTitle origTitle : String) : Prop :=
  let cur1 : String := ⟨normalizeWsList (trimList curTitle.data)⟩
  wordCount cur1 ≤ 4
    ∧ wordCount cur1 + 2 ≤
        wordCount ⟨origTitle.data.filter (fun c => !titleSepColonChars.contains c)⟩
    ∧ wordCount origTitle > 4

/-! ## Concrete input trees used by the closed theorems -/

/-- Claim C2's concrete scored element: a paragraph whose inner text has
one comma and at least 25 characters. -/
def c2e : DNode :=
  .elem 20 "P" [] [.text "This is a sufficiently long paragraph, yes."]

/-- Claim C2's concrete ancestor chain: a `DIV` at level 0 and an
`ARTICLE` at level 1, both valid, with distinct refs. -/
def c2ancs : List AncestorInfo :=
  [⟨10, "DIV", "", "", true⟩, ⟨11, "ARTICLE", "", "", true⟩]

/-- Claim C3's failing input: a `DIV` candidate containing one `LI` that
holds all of its text (no paragraphs, comma count 0). -/
def c3doc : DNode :=
  .elem 1 "DIV" []
    [.elem 2 "DIV" [] [.elem 3 "LI" [] [.text "Just some plain unbroken text here"]]]

/-- Claim C8's container: two consecutive `BR` elements before a non-empty
paragraph. -/
def c8doc : DNode :=
  .elem 1 "DIV" []
    [.elem 2 "BR" [] [], .elem 3 "BR" [] [], .elem 4 "P" [] [.text "Hello world"]]

/-- `c8doc` after one sanitize pass (only the `BR` directly before the
`P` is removed). -/
def c8doc1 : DNode :=
  .elem 1 "DIV" [] [.elem 2 "BR" [] [], .elem 4 "P" [] [.text "Hello world"]]

/-- `c8doc` after two sanitize passes (the remaining `BR` now directly
precedes the `P` and is removed by the second pass). -/
def c8doc2 : DNode :=
  .elem 1 "DIV" [] [.elem 4 "P" [] [.text "Hello world"]]

/-- The concrete environment of the C9/C10 witnesses. -/
def c9env : UriEnv :=
  modelUriEnv "https://example.com/a/" "https://example.com/a/"

/-- Claim C9's round-trip input: an image with a root-relative source. -/
def c9doc : DNode :=
  .elem 1 "DIV" [] [.elem 2 "IMG" [("src", "/pic.png")] []]

/-- Claim C10's witness input: a `javascript:` anchor with a single text
child, one with element children, and an ordinary relative link. -/
def c10doc : DNode :=
  .elem 1 "DIV" []
    [.elem 2 "A" [("href", "javascript:void(0)")] [.text "click me"],
     .elem 3 "A" [("href", "javascript:go()")] [.elem 4 "B" [] [.text "bold link"]],
     .elem 5 "A" [("href", "/next")] [.text "next page"]]


/-! # Theorems

General helper lemmas first, then one theorem per claim (with its witness
or counterexample). -/

/-- Strong induction over the nested `DNode` tree. -/
theorem DNode.strongInd (P : DNode → Prop) (ht : ∀ s, P (.text s))
    (he : ∀ r t a cs, (∀ c ∈ cs, P c) → P (.elem r t a cs)) : ∀ n, P n
  | .text s => ht s
  | .elem r t a cs => he r t a cs (fun c hc => DNode.strongInd P ht he c)
termination_by n => sizeOf n
decreasing_by
  have := List.sizeOf_lt_of_mem hc
  simp only [DNode.elem.sizeOf_spec]
  omega

theorem mem_allElemsList {x : DNode} : ∀ {cs : List DNode},
    x ∈ allElemsList cs ↔ ∃ c ∈ cs, x ∈ allElems c := by
  intro cs
  induction cs with
  | nil => simp [allElemsList]
  | cons c rest ih =>
    simp only [allElemsList, List.mem_append, List.mem_cons, ih]
    constructor
    · rintro (h | ⟨c', hc', hx⟩)
      · exact ⟨c, Or.inl rfl, h⟩
      · exact ⟨c', Or.inr hc', hx⟩
    · rintro ⟨c', (rfl | hc'), hx⟩
      · exact Or.inl hx
      · exact Or.inr ⟨c', hc', hx⟩

theorem attrsGet_attrsSet_same (n v : String) : ∀ l, attrsGet n (attrsSet n v l) = some v := by
  intro l
  induction l with
  | nil => simp [attrsSet, attrsGet]
  | cons p rest ih =>
    by_cases h : p.1 = n
    · simp [attrsSet, attrsGet, h]
    · simp [attrsSet, attrsGet, h, ih]

theorem attrsGet_attrsSet_other (n n' v : String) (hne : n' ≠ n) :
    ∀ l, attrsGet n' (attrsSet n v l) = attrsGet n' l := by
  intro l
  induction l with
  | nil =>
    have hns : n ≠ n' := fun h => hne h.symm
    simp [attrsSet, attrsGet, hns]
  | cons p rest ih =>
    by_cases h : p.1 = n
    · subst h
      simp [attrsSet, attrsGet, Ne.symm hne, hne]
    · by_cases h' : p.1 = n'
      · simp [attrsSet, attrsGet, h, h', hne]
      · simp [attrsSet, attrsGet, h, h', ih]

theorem fixAnchorsList_eq_map (env : UriEnv) :
    ∀ cs : List DNode, fixAnchorsList env cs = cs.map (fixAnchorsNode env) := by
  intro cs
  induction cs with
  | nil => rfl
  | cons c rest ih => simp [fixAnchorsList, ih]

theorem fixMediaList_eq_map (env : UriEnv) :
    ∀ cs : List DNode, fixMediaList env cs = cs.map (fixMediaNode env) := by
  intro cs
  induction cs with
  | nil => rfl
  | cons c rest ih => simp [fixMediaList, ih]

/-- The media pass maps every element entry pointwise: media tags get
their attributes rewritten, all other entries are unchanged. -/
theorem elemsList_fixMediaNode (env : UriEnv) : ∀ t : DNode,
    elemsList (fixMediaNode env t) = (elemsList t).map (mediaEntryMap env) := by
  intro t
  induction t using DNode.strongInd with
  | ht s => rfl
  | he r tg a cs ih =>
    have tail : ∀ cs' : List DNode,
        (∀ c ∈ cs', elemsList (fixMediaNode env c) = (elemsList c).map (mediaEntryMap env)) →
        (allElemsList (fixMediaList env cs')).map elemEntry
          = ((allElemsList cs').map elemEntry).map (mediaEntryMap env) := by
      intro cs' h
      induction cs' with
      | nil => rfl
      | cons c rest ihl =>
        rw [fixMediaList_eq_map] at *
        simp only [List.map_cons, allElemsList, List.map_append]
        have hc : (allElems (fixMediaNode env c)).map elemEntry
            = ((allElems c).map elemEntry).map (mediaEntryMap env) :=
          h c (by simp)
        rw [hc]
        congr 1
        exact ihl (fun c' hc' => h c' (by simp [hc']))
    show elemsList (DNode.elem r tg
        (if MEDIA_TAGS.contains tg then fixMediaAttrs env a else a)
        (fixMediaList env cs))
      = (elemsList (DNode.elem r tg a cs)).map (mediaEntryMap env)
    simp only [elemsList, allElems, List.map_cons]
    rw [List.cons_eq_cons]
    constructor
    · rfl
    · exact tail cs ih


/-! ## Claim C7 -/

/-- Claim C7: when the configured element ceiling is positive and the
document's total element count exceeds it, `parse` throws the
TooManyElements error before performing any mutation of the document (the
result is the error for every possible continuation pipeline, which is
never applied); when the ceiling is 0 — the default, meaning unlimited —
the error is never raised and the pipeline runs on the untouched
document. -/
theorem c7_parse_element_ceiling :
    (∀ (α : Type) (maxElemsToParse : Nat) (doc : DNode) (pipeline : DNode → α),
        maxElemsToParse > 0 → countElements doc > maxElemsToParse →
        parseWithGuard maxElemsToParse doc pipeline
          = .error "Aborting parsing document; too many elements found")
    ∧ (∀ (α : Type) (doc : DNode) (pipeline : DNode → α),
        parseWithGuard 0 doc pipeline = .ok (pipeline doc)) := by
  constructor
  · intro α maxElemsToParse doc pipeline h1 h2
    simp [parseWithGuard, h1, h2]
  · intro α doc pipeline
    simp [parseWithGuard]

/-- Witness for C7 at a concrete document with 3 elements: ceiling 2
fails with the error, ceiling 0 (unlimited) runs the pipeline. -/
theorem c7_parse_element_ceiling_witness :
    parseWithGuard 2 c3doc (fun d => d)
        = .error "Aborting parsing document; too many elements found"
      ∧ parseWithGuard 0 c3doc (fun d => d) = .ok c3doc := by
  constructor
  · exact c7_parse_element_ceiling.1 DNode 2 c3doc (fun d => d) (by decide) (by decide)
  · exact c7_parse_element_ceiling.2 DNode c3doc (fun d => d)

/-! ## Claim C3 -/

/-- Claim C3 (code bug): in `c3doc`, the inner `DIV` (ref 2) is an
evaluated conditional-cleaning candidate with comma count 0 < 10, is not
itself a list, contains one `LI` and no `P`, and the text inside its list
item is 100% (> 50%) of its content — yet `_cleanConditionally` keeps it,
because the source computes the list-text proportion from the
never-populated `textContentByTag` object, so the removal rule of the
claim can never fire. -/
theorem c3_li_proportion_rule_never_fires :
    (∃ node, findByRef 2 c3doc = some node
        ∧ node.tagOf = "DIV"
        ∧ getCharCount node < 10
        ∧ (getAllNodesWithTag node ["LI"]).length = 1
        ∧ (getAllNodesWithTag node ["P"]).length = 0
        ∧ 2 * (textContentList ((getAllNodesWithTag node ["LI"]).map DNode.textContent |>.map DNode.text)).length
            > (getInnerText node).length)
      ∧ cleanConditionally 7 0 [] c3doc "DIV" = c3doc := by
  constructor
  · refine ⟨.elem 2 "DIV" [] [.elem 3 "LI" [] [.text "Just some plain unbroken text here"]],
      ?_, ?_, ?_, ?_, ?_, ?_⟩ <;> first | decide | rfl
  · with_unfolding_all rfl


/-! ## Claim C8 -/

theorem prepArticle_c8doc_once : prepArticle 7 0 "" c8doc = c8doc1 := by
  with_unfolding_all rfl

theorem prepArticle_c8doc_twice : prepArticle 7 0 "" c8doc1 = c8doc2 := by
  with_unfolding_all rfl

/-- Counterexample to claim C8 as stated: on `c8doc` (two `BR` elements
before a non-empty paragraph) the first sanitize pass removes only the
`BR` directly preceding the `P`; running the pass a second time on the
first pass's output removes the remaining `BR` (now directly preceding
the `P`), so the second result is not identical and a further node is
removed. -/
theorem c8_counterexample :
    prepArticle 7 0 "" c8doc = c8doc1
      ∧ prepArticle 7 0 "" (prepArticle 7 0 "" c8doc) = c8doc2
      ∧ countElements c8doc1 = 3
      ∧ countElements c8doc2 = 2 := by
  refine ⟨prepArticle_c8doc_once, ?_, by decide, by decide⟩
  rw [prepArticle_c8doc_once]
  exact prepArticle_c8doc_twice

/-- Claim C8 amended: the content sanitizer is not idempotent — there is a
container on which running the sanitize/prep-article pass a second time
removes a further node and yields a different container. -/
theorem c8_not_idempotent :
    ∃ container : DNode,
      countElements (prepArticle 7 0 "" (prepArticle 7 0 "" container))
        < countElements (prepArticle 7 0 "" container) := by
  refine ⟨c8doc, ?_⟩
  rw [prepArticle_c8doc_once, prepArticle_c8doc_twice]
  decide


/-! ## Claim C1 -/

theorem firstMaxAttempt_eq_none {α : Type} :
    ∀ {l : List (AttemptResult α)}, firstMaxAttempt l = none → l = [] := by
  intro l h
  cases l with
  | nil => rfl
  | cons x rest =>
    exfalso
    cases hr : firstMaxAttempt rest with
    | none => simp [firstMaxAttempt, hr] at h
    | some b =>
      simp only [firstMaxAttempt, hr] at h
      by_cases hb : b.textLength > x.textLength
      · rw [if_pos hb] at h; cases h
      · rw [if_neg hb] at h; cases h

theorem firstMaxAttempt_mem {α : Type} :
    ∀ {l : List (AttemptResult α)} {a}, firstMaxAttempt l = some a → a ∈ l := by
  intro l
  induction l with
  | nil => intro a h; simp [firstMaxAttempt] at h
  | cons x rest ih =>
    intro a h
    cases hr : firstMaxAttempt rest with
    | none =>
      simp only [firstMaxAttempt, hr] at h
      cases h
      exact List.mem_cons_self x rest
    | some b =>
      simp only [firstMaxAttempt, hr] at h
      by_cases hb : b.textLength > x.textLength
      · rw [if_pos hb] at h
        cases h
        exact List.mem_cons_of_mem x (ih hr)
      · rw [if_neg hb] at h
        cases h
        exact List.mem_cons_self x rest

theorem firstMaxAttempt_ge {α : Type} :
    ∀ {l : List (AttemptResult α)} {a}, firstMaxAttempt l = some a →
      ∀ b ∈ l, b.textLength ≤ a.textLength := by
  intro l
  induction l with
  | nil => intro a h; simp [firstMaxAttempt] at h
  | cons x rest ih =>
    intro a h b hb
    cases hr : firstMaxAttempt rest with
    | none =>
      have hrest := firstMaxAttempt_eq_none hr
      subst hrest
      simp only [firstMaxAttempt, hr] at h
      cases h
      rcases List.mem_cons.mp hb with rfl | hmem
      · exact Nat.le_refl _
      · simp at hmem
    | some c =>
      simp only [firstMaxAttempt, hr] at h
      by_cases hc : c.textLength > x.textLength
      · rw [if_pos hc] at h
        cases h
        rcases List.mem_cons.mp hb with rfl | hmem
        · exact Nat.le_of_lt hc
        · exact ih hr b hmem
      · rw [if_neg hc] at h
        cases h
        rcases List.mem_cons.mp hb with rfl | hmem
        · exact Nat.le_refl _
        · exact Nat.le_trans (ih hr b hmem) (Nat.le_of_not_lt hc)


/-- Claim C1: `_grabArticle` makes at most 4 attempts, in the fixed flag
order StripUnlikelys+WeightClasses+CleanConditionally (7),
WeightClasses+CleanConditionally (6), CleanConditionally (4), NoFlags (0);
each attempt is a pure function of its flags applied to a fresh clone of
the original body (no scoring state carried over — cloning copies no
expandos, which the model expresses by `run` depending on the flags
alone); the first attempt whose text length reaches the character
threshold is returned at once; when all fall short, an attempt with the
greatest non-zero text length is returned, and the result is `none`
exactly when no attempt produced any text. -/
theorem c1_grab_article_retry_loop (α : Type) (run : Nat → AttemptResult α)
    (charThreshold : Nat) :
    flagSequences
        = [FLAG_STRIP_UNLIKELYS ||| FLAG_WEIGHT_CLASSES ||| FLAG_CLEAN_CONDITIONALLY,
           FLAG_WEIGHT_CLASSES ||| FLAG_CLEAN_CONDITIONALLY, FLAG_CLEAN_CONDITIONALLY, 0]
      ∧ flagSequences = [7, 6, 4, 0]
      ∧ (∀ i, i < flagSequences.length →
          (∀ j, j < i → (run (flagSequences.getD j 0)).textLength < charThreshold) →
          (run (flagSequences.getD i 0)).textLength ≥ charThreshold →
          grabArticle run charThreshold = some (run (flagSequences.getD i 0)))
      ∧ ((∀ f ∈ flagSequences, (run f).textLength < charThreshold) →
          (grabArticle run charThreshold = none ↔
            ∀ f ∈ flagSequences, (run f).textLength = 0)
          ∧ (∀ a, grabArticle run charThreshold = some a →
              a ∈ flagSequences.map run ∧ a.textLength > 0
                ∧ ∀ b ∈ flagSequences.map run, b.textLength ≤ a.textLength)) := by
  have hfs : flagSequences = [7, 6, 4, 0] := by decide
  refine ⟨by rw [hfs]; decide, hfs, ?_, ?_⟩
  · intro i hi hprev hcur
    rw [hfs] at hi hprev hcur
    simp only [List.length_cons, List.length_nil] at hi
    unfold grabArticle
    rw [hfs]
    interval_cases i
    · have hc : (run 7).textLength ≥ charThreshold := hcur
      simp only [grabArticleLoop]
      rw [if_pos hc]
      rfl
    · have h0 : (run 7).textLength < charThreshold := hprev 0 (by omega)
      have hc : (run 6).textLength ≥ charThreshold := hcur
      have n0 : ¬((run 7).textLength ≥ charThreshold) := by omega
      simp only [grabArticleLoop]
      rw [if_neg n0, if_pos hc]
      rfl
    · have h0 : (run 7).textLength < charThreshold := hprev 0 (by omega)
      have h1 : (run 6).textLength < charThreshold := hprev 1 (by omega)
      have hc : (run 4).textLength ≥ charThreshold := hcur
      have n0 : ¬((run 7).textLength ≥ charThreshold) := by omega
      have n1 : ¬((run 6).textLength ≥ charThreshold) := by omega
      simp only [grabArticleLoop]
      rw [if_neg n0, if_neg n1, if_pos hc]
      rfl
    · have h0 : (run 7).textLength < charThreshold := hprev 0 (by omega)
      have h1 : (run 6).textLength < charThreshold := hprev 1 (by omega)
      have h2 : (run 4).textLength < charThreshold := hprev 2 (by omega)
      have hc : (run 0).textLength ≥ charThreshold := hcur
      have n0 : ¬((run 7).textLength ≥ charThreshold) := by omega
      have n1 : ¬((run 6).textLength ≥ charThreshold) := by omega
      have n2 : ¬((run 4).textLength ≥ charThreshold) := by omega
      simp only [grabArticleLoop]
      rw [if_neg n0, if_neg n1, if_neg n2, if_pos hc]
      rfl
  · intro hall
    have h7 := hall 7 (by rw [hfs]; simp)
    have h6 := hall 6 (by rw [hfs]; simp)
    have h4 := hall 4 (by rw [hfs]; simp)
    have h0 := hall 0 (by rw [hfs]; simp)
    have n7 : ¬((run 7).textLength ≥ charThreshold) := by omega
    have n6 : ¬((run 6).textLength ≥ charThreshold) := by omega
    have n4 : ¬((run 4).textLength ≥ charThreshold) := by omega
    have n0 : ¬((run 0).textLength ≥ charThreshold) := by omega
    have key : grabArticle run charThreshold =
        (match firstMaxAttempt [run 7, run 6, run 4, run 0] with
         | some a => if a.textLength > 0 then some a else none
         | none => none) := by
      unfold grabArticle
      rw [hfs]
      simp only [grabArticleLoop]
      rw [if_neg n7, if_neg n6, if_neg n4, if_neg n0]
      simp
    obtain ⟨a0, ha0⟩ : ∃ a, firstMaxAttempt [run 7, run 6, run 4, run 0] = some a := by
      cases h : firstMaxAttempt [run 7, run 6, run 4, run 0] with
      | none => exact absurd (firstMaxAttempt_eq_none h) (by simp)
      | some a => exact ⟨a, rfl⟩
    have hmem := firstMaxAttempt_mem ha0
    have hge := firstMaxAttempt_ge ha0
    have hmapeq : flagSequences.map run = [run 7, run 6, run 4, run 0] := by
      rw [hfs]; rfl
    have key2 : grabArticle run charThreshold
        = if a0.textLength > 0 then some a0 else none := by
      rw [key, ha0]
    rw [key2]
    constructor
    · constructor
      · intro hnone f hf
        by_cases hpos : a0.textLength > 0
        · rw [if_pos hpos] at hnone; cases hnone
        · have ha0z : a0.textLength = 0 := by omega
          have : (run f).textLength ≤ a0.textLength := by
            apply hge
            rw [hfs] at hf
            simp only [List.mem_cons, List.mem_singleton] at hf
            rcases hf with rfl | rfl | rfl | rfl | h
            · simp
            · simp
            · simp
            · simp
            · simp at h
          omega
      · intro hzero
        have : a0.textLength = 0 := by
          simp only [List.mem_cons] at hmem
          rcases hmem with rfl | rfl | rfl | rfl | h
          · exact hzero 7 (by rw [hfs]; simp)
          · exact hzero 6 (by rw [hfs]; simp)
          · exact hzero 4 (by rw [hfs]; simp)
          · exact hzero 0 (by rw [hfs]; simp)
          · simp at h
        rw [if_neg (by omega)]
    · intro a ha
      by_cases hpos : a0.textLength > 0
      · rw [if_pos hpos] at ha
        cases ha
        refine ⟨by rw [hmapeq]; exact hmem, hpos, ?_⟩
        intro b hb
        rw [hmapeq] at hb
        exact hge b hb
      · rw [if_neg hpos] at ha
        cases ha

/-- Witness for C1: with threshold 500 and a run function whose attempts
have lengths 100, 100, 600, 0, the third flag combination (4) succeeds and
is returned; with all attempts failing (lengths 100, 300, 50, 0) the
longest non-zero attempt (flags 6, length 300) is returned. -/
theorem c1_grab_article_retry_loop_witness :
    grabArticle (fun f => (⟨f, if f = 4 then 600 else if f = 0 then 0 else 100⟩ : AttemptResult Nat)) 500
        = some ⟨4, 600⟩
      ∧ (grabArticle (fun f => (⟨f, if f = 6 then 300 else if f = 0 then 0 else if f = 4 then 50 else 100⟩ : AttemptResult Nat)) 500 = none ↔
          ∀ g ∈ flagSequences,
            ((fun f => (⟨f, if f = 6 then 300 else if f = 0 then 0 else if f = 4 then 50 else 100⟩ : AttemptResult Nat)) g).textLength = 0) := by
  constructor
  · have h := (c1_grab_article_retry_loop Nat
      (fun f => (⟨f, if f = 4 then 600 else if f = 0 then 0 else 100⟩ : AttemptResult Nat)) 500).2.2.1
      2 (by decide) (by decide) (by decide)
    simpa using h
  · exact ((c1_grab_article_retry_loop Nat
      (fun f => (⟨f, if f = 6 then 300 else if f = 0 then 0 else if f = 4 then 50 else 100⟩ : AttemptResult Nat)) 500).2.2.2
      (by decide)).1

/-- Counterexample to claim C5 as stated: the current title
"Aa Bb Cc Dd" (4 words) against the raw title "Aa Bb Cc Dd | Ee Ff"
(6 words with separators removed, 7 words raw) satisfies every condition
of the claim — at most 4 words, at least 2 words shorter than the
separator-stripped raw title, raw title over 4 words — yet the guard does
not revert: the source requires strictly more than a 2-word drop
(`curTitleWordCount < origTitleWordCount - 2`). -/
theorem c5_counterexample_two_words_shorter :
    c5ClaimCondition "Aa Bb Cc Dd" "Aa Bb Cc Dd | Ee Ff"
      ∧ finalTitleGuard "Aa Bb Cc Dd" "Aa Bb Cc Dd | Ee Ff" = "Aa Bb Cc Dd"
      ∧ "Aa Bb Cc Dd" ≠ ("Aa Bb Cc Dd | Ee Ff" : String) := by
  refine ⟨?_, ?_, ?_⟩
  · unfold c5ClaimCondition
    exact ⟨by decide, by decide, by decide⟩
  · decide
  · decide

/-- Claim C5 (amended): after separator/colon cleanup the result is
reverted to the raw title exactly when the trimmed, whitespace-normalized
result has at most 4 words, is at least 3 words (strictly more than 2)
shorter than the raw title counting the raw title's words with separators
removed, and the raw title itself has more than 4 words; in every other
case the trimmed, normalized current title is returned. -/
theorem c5_final_guard_revert_condition (curTitle origTitle : String) :
    finalTitleGuard curTitle origTitle =
      (if wordCount ⟨normalizeWsList (trimList curTitle.data)⟩ ≤ 4
          ∧ wordCount ⟨normalizeWsList (trimList curTitle.data)⟩ + 3
              ≤ wordCount ⟨origTitle.data.filter (fun c => !titleSepColonChars.contains c)⟩
          ∧ wordCount origTitle > 4
       then origTitle
       else ⟨normalizeWsList (trimList curTitle.data)⟩) := by
  simp only [finalTitleGuard]
  split_ifs with h1 h2 h3 <;> first | rfl | (exfalso; omega)

/-- Counterexample to claim C4 as stated: for the title
"Aaaa Bbbb Cccc | Dddddd Eeeeee Ffffff Gggggg | Hh Ii Jj" (over 4 words,
space-surrounded separators), the source considers only the first and last
split segments and keeps the first ("Aaaa Bbbb Cccc"), while the claim's
longest-of-all-segments rule would select the strictly longer middle
segment "Dddddd Eeeeee Ffffff Gggggg". -/
theorem c4_counterexample_middle_segment :
    wordCount "Aaaa Bbbb Cccc | Dddddd Eeeeee Ffffff Gggggg | Hh Ii Jj" > 4
      ∧ (findSepMatch ("Aaaa Bbbb Cccc | Dddddd Eeeeee Ffffff Gggggg | Hh Ii Jj" : String).data).isSome
      ∧ separatorTitleCleanup "Aaaa Bbbb Cccc | Dddddd Eeeeee Ffffff Gggggg | Hh Ii Jj"
          "Aaaa Bbbb Cccc | Dddddd Eeeeee Ffffff Gggggg | Hh Ii Jj" = "Aaaa Bbbb Cccc"
      ∧ specLongestSegmentCleanup "Aaaa Bbbb Cccc | Dddddd Eeeeee Ffffff Gggggg | Hh Ii Jj"
          "Aaaa Bbbb Cccc | Dddddd Eeeeee Ffffff Gggggg | Hh Ii Jj"
          = "Dddddd Eeeeee Ffffff Gggggg"
      ∧ ("Aaaa Bbbb Cccc" : String) ≠ "Dddddd Eeeeee Ffffff Gggggg" := by
  refine ⟨?_, ?_, ?_, ?_, ?_⟩ <;> decide

/-- Claim C4 (amended): for a title with more than 4 words containing a
space-surrounded hierarchical separator, the cleanup splits on all such
separators but considers only the FIRST split segment (when longer than 3
characters) and the LAST split segment (when there are at least two text
segments and it is longer than 3 characters) — never a middle segment;
when both qualify, the longer of the two is selected (the first on ties),
and when the selection has fewer than 3 words the text of the original
title after the first separator match is used instead. -/
theorem c4_first_and_last_parts_only (curTitle : String) (m : List Char)
    (h4 : wordCount curTitle > 4)
    (hm : findSepMatch curTitle.data = some m)
    (hlen : ((jsSplitTitleSeps curTitle.data).map (fun l => (⟨l⟩ : String))).length > 2)
    (hfst : (((jsSplitTitleSeps curTitle.data).map (fun l => (⟨l⟩ : String))).getD 0 "").length > 3)
    (hlst : (((jsSplitTitleSeps curTitle.data).map (fun l => (⟨l⟩ : String))).getLast?.getD "").length > 3) :
    separatorTitleCleanup curTitle curTitle =
      (let parts := (jsSplitTitleSeps curTitle.data).map (fun l => (⟨l⟩ : String))
       let first := parts.getD 0 ""
       let last := parts.getLast?.getD ""
       let chosen := if first.length ≥ last.length then first else last
       if wordCount chosen < 3 then
         jsSubstringFrom curTitle
           ((match indexOfList m curTitle.data with
             | some i => (i : Int)
             | none => -1) + (m.length : Int))
       else chosen) := by
  have h1 : ((jsSplitTitleSeps curTitle.data).map (fun l => (⟨l⟩ : String))).length > 1 := by
    omega
  have hA : ((jsSplitTitleSeps curTitle.data).map (fun l => (⟨l⟩ : String))).length > 1
      ∧ (((jsSplitTitleSeps curTitle.data).map (fun l => (⟨l⟩ : String))).getD 0 "").length > 3 :=
    ⟨h1, hfst⟩
  have hB : ((jsSplitTitleSeps curTitle.data).map (fun l => (⟨l⟩ : String))).length > 2
      ∧ (((jsSplitTitleSeps curTitle.data).map (fun l => (⟨l⟩ : String))).getLast?.getD "").length > 3 :=
    ⟨hlen, hlst⟩
  simp only [separatorTitleCleanup, hm, if_pos h4]
  rw [if_pos hA, if_pos hB]
  simp only [List.singleton_append, jsSortByLenDesc, insertByLenDesc]
  by_cases hc :
      ((((jsSplitTitleSeps curTitle.data).map (fun l => (⟨l⟩ : String))).getD 0 "").length
        ≥ (((jsSplitTitleSeps curTitle.data).map (fun l => (⟨l⟩ : String))).getLast?.getD "").length)
  · simp only [if_pos hc, eq_true h1, and_true]
  · simp only [if_neg hc, eq_true h1, and_true]

/-- Witness for the amended C4 theorem: at the concrete title
"Aaaa Bbbb Cccc | Dddddd Eeeeee Ffffff Gggggg | Hh Ii Jj" every
hypothesis holds and the cleanup yields the first segment
"Aaaa Bbbb Cccc". -/
theorem c4_first_and_last_parts_only_witness :
    separatorTitleCleanup "Aaaa Bbbb Cccc | Dddddd Eeeeee Ffffff Gggggg | Hh Ii Jj"
        "Aaaa Bbbb Cccc | Dddddd Eeeeee Ffffff Gggggg | Hh Ii Jj" = "Aaaa Bbbb Cccc" := by
  rw [c4_first_and_last_parts_only
    "Aaaa Bbbb Cccc | Dddddd Eeeeee Ffffff Gggggg | Hh Ii Jj" [' ', '|', ' ']
    (by decide) (by decide) (by decide) (by decide) (by decide)]
  decide

/-- Every token produced by the tokenizer is a nonempty string (joint
statement for the mutual pair, by induction on the input length). -/
theorem tokenize_ne_nil_aux : ∀ n cs, List.length cs ≤ n →
    (∀ t ∈ tokenizeWords cs, t.data ≠ [])
      ∧ ∀ acc, acc ≠ ([] : List Char) → ∀ t ∈ tokenizeInWord acc cs, t.data ≠ []
  | _, [], _ => by
    constructor
    · intro t ht
      simp [tokenizeWords] at ht
    · intro acc hacc t ht
      simp only [tokenizeInWord, List.mem_singleton] at ht
      subst ht
      simpa using hacc
  | 0, c :: rest, h => by simp at h
  | n + 1, c :: rest, h => by
    have hr : List.length rest ≤ n := by
      simp only [List.length_cons] at h
      omega
    obtain ⟨ih1, ih2⟩ := tokenize_ne_nil_aux n rest hr
    constructor
    · intro t ht
      simp only [tokenizeWords] at ht
      by_cases hw : isWordChar c
      · rw [if_pos hw] at ht
        exact ih2 [c] (by simp) t ht
      · rw [if_neg hw] at ht
        exact ih1 t ht
    · intro acc hacc t ht
      simp only [tokenizeInWord] at ht
      by_cases hw : isWordChar c
      · rw [if_pos hw] at ht
        exact ih2 (c :: acc) (by simp) t ht
      · rw [if_neg hw] at ht
        rcases List.mem_cons.mp ht with rfl | htl
        · simpa using hacc
        · exact ih1 t htl

/-- Every token of `tokenize` is a nonempty string. -/
theorem tokenize_mem_ne_empty (s : String) : ∀ t ∈ tokenize s, t ≠ "" := by
  intro t ht hteq
  have h := (tokenize_ne_nil_aux (List.length (lowerList s.data)) (lowerList s.data)
    le_rfl).1 t ht
  rw [hteq] at h
  exact h rfl

/-- A string with at least one token has similarity 1 with itself. -/
theorem textSimilarity_self (s : String) (hs : ¬(tokenize s).isEmpty) :
    textSimilarity s s = 1 := by
  have hne : s ≠ "" := by
    intro h
    subst h
    exact hs rfl
  have h2 : (tokenize s).isEmpty = false := by simpa using hs
  have h1 : (decide (s = "") || decide (s = "")) = false := by simp [hne]
  have h3 : (tokenize s).filter (fun tk => !(tokenize s).contains tk) = [] := by
    rw [List.filter_eq_nil_iff]
    intro a ha
    simp [List.contains_iff_exists_mem_beq]
    exact ha
  have h4 : (joinSpace (tokenize s)).length ≠ 0 := by
    cases htk : tokenize s with
    | nil => rw [htk] at h2; simp at h2
    | cons t rest =>
      have htne : t ≠ "" := tokenize_mem_ne_empty s t (by rw [htk]; exact List.mem_cons_self t rest)
      have htd : t.data ≠ [] := by
        intro hd
        apply htne
        cases t
        simp only at hd
        rw [hd]
      obtain ⟨ext, hjs⟩ : ∃ ext, (joinSpace (t :: rest)).data = t.data ++ ext := by
        cases rest with
        | nil => exact ⟨[], by simp [joinSpace]⟩
        | cons u rs =>
          exact ⟨" ".data ++ (joinSpace (u :: rs)).data, by
            simp [joinSpace, String.data_append, List.append_assoc]⟩
      simp only [String.length, hjs, List.length_append]
      intro h0
      exact htd (List.length_eq_zero.mp (by omega))
  simp only [textSimilarity, h1, Bool.false_eq_true, if_false, h2, Bool.or_self, h3]
  rw [if_neg h4]
  simp [joinSpace]

/-- Counterexample to claim C6's "in particular" sentence: with JSON-LD
name "World Hello Extra" and headline "Hello World" against HTML title
"Hello World", the headline equals the HTML title (similarity 1 > 0.75),
yet the name also reaches similarity 1 (all title tokens occur in it), so
the strict comparison `headlineSim > nameSim` fails and the name — not the
headline — is returned. -/
theorem c6_counterexample_equal_similarities :
    textSimilarity "Hello World" "Hello World" > (3/4 : ℚ)
      ∧ textSimilarity "World Hello Extra" "Hello World" = 1
      ∧ jsonLdTitle "World Hello Extra" "Hello World" "Hello World" = "World Hello Extra"
      ∧ ("World Hello Extra" : String) ≠ "Hello World" := by
  refine ⟨?_, ?_, ?_, ?_⟩
  · have h : textSimilarity "Hello World" "Hello World" = 1 := by with_unfolding_all rfl
    rw [h]
    norm_num
  · with_unfolding_all rfl
  · with_unfolding_all rfl
  · decide

/-- Claim C6 (amended): when the JSON-LD name and headline differ, the
headline is the resolved title exactly when its similarity to the
HTML-derived title strictly exceeds both the name's similarity and 0.75;
the corrected "in particular": a headline equal to a tokenizable HTML
title wins only when the name's similarity is strictly below 1. -/
theorem c6_jsonld_title_selection (name headline htmlTitle : String)
    (hne : name ≠ headline) :
    (jsonLdTitle name headline htmlTitle = headline
        ↔ textSimilarity headline htmlTitle > textSimilarity name htmlTitle
            ∧ textSimilarity headline htmlTitle > (3/4 : ℚ))
      ∧ (headline = htmlTitle → ¬(tokenize htmlTitle).isEmpty →
          textSimilarity name htmlTitle < 1 →
          jsonLdTitle name headline htmlTitle = headline) := by
  constructor
  · constructor
    · intro h
      by_contra hc
      rw [jsonLdTitle, if_pos hne, if_neg hc] at h
      exact hne h
    · intro hcond
      rw [jsonLdTitle, if_pos hne, if_pos hcond]
  · intro hh hs hlt
    rw [hh] at hne ⊢
    have h1 := textSimilarity_self htmlTitle hs
    rw [jsonLdTitle, if_pos hne, if_pos ⟨by rw [h1]; exact hlt, by rw [h1]; norm_num⟩]

/-- Witness for the amended C6 theorem: name "Something Else" shares no
token with HTML title "Hello World" (similarity 0 < 1), the headline
equals the HTML title, so the headline is returned. -/
theorem c6_jsonld_title_selection_witness :
    jsonLdTitle "Something Else" "Hello World" "Hello World" = "Hello World" := by
  have hlt : textSimilarity "Something Else" "Hello World" < 1 := by
    have h : textSimilarity "Something Else" "Hello World" = 0 := by with_unfolding_all rfl
    rw [h]
    norm_num
  exact (c6_jsonld_title_selection "Something Else" "Hello World" "Hello World"
    (by decide)).2 rfl (by decide) hlt

/-- One scoring step leaves every other node's score unchanged. -/
theorem scoreAncestorStep_scores_other (flags : Nat) (c : ℚ) (a : AncestorInfo)
    (level : Nat) (st : ScoreState) (r : Nat) (h : r ≠ a.ref) :
    (scoreAncestorStep flags c a level st).scores r = st.scores r := by
  simp only [scoreAncestorStep]
  by_cases hv : a.valid
  · simp only [hv, Bool.not_true, Bool.false_eq_true, if_false]
    cases hsc : st.scores a.ref <;> simp [updateScore, h]
  · simp [hv]

/-- One scoring step keeps every existing candidate. -/
theorem scoreAncestorStep_candidates_mono (flags : Nat) (c : ℚ) (a : AncestorInfo)
    (level : Nat) (st : ScoreState) :
    st.candidates ⊆ (scoreAncestorStep flags c a level st).candidates := by
  intro x hx
  simp only [scoreAncestorStep]
  by_cases hv : a.valid
  · simp only [hv, Bool.not_true, Bool.false_eq_true, if_false]
    cases hsc : st.scores a.ref
    · simpa using Or.inl hx
    · exact hx
  · simpa [hv] using hx

/-- The ancestor loop leaves the score of every node outside the list
unchanged. -/
theorem scoreAncestors_scores_frame (flags : Nat) (c : ℚ) :
    ∀ (ancs : List AncestorInfo) (level : Nat) (st : ScoreState) (r : Nat),
      r ∉ List.map AncestorInfo.ref ancs →
      (scoreAncestors flags c ancs level st).scores r = st.scores r
  | [], _, _, _, _ => rfl
  | a :: rest, level, st, r, h => by
    simp only [List.map_cons, List.mem_cons] at h
    push_neg at h
    simp only [scoreAncestors]
    rw [scoreAncestors_scores_frame flags c rest (level + 1) _ r h.2]
    exact scoreAncestorStep_scores_other flags c a level st r h.1

/-- The ancestor loop keeps every existing candidate. -/
theorem scoreAncestors_candidates_mono (flags : Nat) (c : ℚ) :
    ∀ (ancs : List AncestorInfo) (level : Nat) (st : ScoreState),
      st.candidates ⊆ (scoreAncestors flags c ancs level st).candidates
  | [], _, _ => fun _ hx => hx
  | a :: rest, level, st => by
    intro x hx
    simp only [scoreAncestors]
    exact scoreAncestors_candidates_mono flags c rest (level + 1) _
      (scoreAncestorStep_candidates_mono flags c a level st hx)

/-- Closed form of the ancestor loop on a list of valid ancestors with
distinct refs: the `i`-th ancestor, not yet scored, ends with its
initialization value plus the contribution divided by the divider of
level `level + i`, and is pushed to the candidate list. -/
theorem scoreAncestors_getD (flags : Nat) (c : ℚ) :
    ∀ (ancs : List AncestorInfo) (level : Nat) (st : ScoreState),
      (List.map AncestorInfo.ref ancs).Nodup →
      (∀ a ∈ ancs, a.valid = true) →
      ∀ i, i < ancs.length → ∀ d : AncestorInfo,
        st.scores (ancs.getD i d).ref = none →
          (scoreAncestors flags c ancs level st).scores (ancs.getD i d).ref
              = some (initializeNodeScore flags (ancs.getD i d)
                  + c / scoreDivider (level + i))
            ∧ (ancs.getD i d).ref ∈ (scoreAncestors flags c ancs level st).candidates
  | [], _, _, _, _, i, hi, _, _ => absurd hi (by simp)
  | a :: rest, level, st, hnd, hv, 0, hi, d, hnone => by
    have hval : a.valid = true := hv a (List.mem_cons_self a rest)
    have hrefs : a.ref ∉ List.map AncestorInfo.ref rest := by
      simp only [List.map_cons, List.nodup_cons] at hnd
      exact hnd.1
    have hgd : (a :: rest).getD 0 d = a := rfl
    rw [hgd] at hnone ⊢
    simp only [scoreAncestors]
    have hstep : (scoreAncestorStep flags c a level st).scores a.ref
        = some (initializeNodeScore flags a + c / scoreDivider level) := by
      simp only [scoreAncestorStep, hval, Bool.not_true, Bool.false_eq_true, if_false, hnone]
      simp [updateScore]
    have hcand : a.ref ∈ (scoreAncestorStep flags c a level st).candidates := by
      simp only [scoreAncestorStep, hval, Bool.not_true, Bool.false_eq_true, if_false, hnone]
      simp
    refine ⟨?_, ?_⟩
    · rw [scoreAncestors_scores_frame flags c rest (level + 1) _ a.ref hrefs, hstep,
        Nat.add_zero]
    · exact scoreAncestors_candidates_mono flags c rest (level + 1) _ hcand
  | a :: rest, level, st, hnd, hv, i + 1, hi, d, hnone => by
    have hgd : (a :: rest).getD (i + 1) d = rest.getD i d := rfl
    rw [hgd] at hnone ⊢
    have hi' : i < rest.length := by
      simp only [List.length_cons] at hi
      omega
    have hmem : rest.getD i d ∈ rest := by
      rw [List.getD_eq_get rest d hi']
      exact List.get_mem rest i hi' 
    have hnd' : (a.ref ∉ List.map AncestorInfo.ref rest)
        ∧ (List.map AncestorInfo.ref rest).Nodup := by
      simp only [List.map_cons, List.nodup_cons] at hnd
      exact hnd
    have hne : (rest.getD i d).ref ≠ a.ref := by
      intro he
      apply hnd'.1
      rw [← he]
      exact List.mem_map_of_mem AncestorInfo.ref hmem
    simp only [scoreAncestors]
    have hnone' : (scoreAncestorStep flags c a level st).scores (rest.getD i d).ref
        = none := by
      rw [scoreAncestorStep_scores_other flags c a level st _ hne]
      exact hnone
    have hrec := scoreAncestors_getD flags c rest (level + 1)
      (scoreAncestorStep flags c a level st) hnd'.2
      (fun x hx => hv x (List.mem_cons_of_mem a hx)) i hi' d hnone'
    have harith : level + 1 + i = level + (i + 1) := by omega
    rw [harith] at hrec
    exact hrec

/-- The final link-density scaling, for a candidate. -/
theorem finalizeCandidateScores_scores_mem (ld : Nat → ℚ) (st : ScoreState) (r : Nat)
    (h : r ∈ st.candidates) :
    (finalizeCandidateScores ld st).scores r
      = (st.scores r).map (fun s => s * (1 - ld r)) := by
  have hc : st.candidates.contains r = true := by
    simp [List.contains_iff_exists_mem_beq]
    exact h
  simp only [finalizeCandidateScores]
  rw [if_pos hc]

/-- A helper: `getD` commutes with `take` below the cut. -/
theorem getD_take_of_lt {α : Type} :
    ∀ (l : List α) (n i : Nat), i < n → ∀ d : α, (l.take n).getD i d = l.getD i d
  | [], _, _, _, _ => by simp
  | a :: tl, n + 1, 0, _, d => by simp [List.getD_cons_zero]
  | a :: tl, n + 1, i + 1, h, d => by
    simp only [List.take_succ_cons, List.getD_cons_succ]
    exact getD_take_of_lt tl n i (by omega) d

/-- Claim C2: for a scored element with inner text length at least 25 and
a chain of valid, distinct ancestors, the contribution is exactly
`1 + commas + min(floor(len/100), 3)`; the level divider is 1 at level 0,
2 at level 1 and `level × 3` from level 2 on; each of the first 5
ancestors is initialized with its tag base score plus the class/id weight
(the weight vanishing when the WeightClasses flag is inactive) and
accumulates the contribution divided by its level's divider, becoming a
candidate; and the finalized candidate score is the accumulated score
multiplied by `1 − linkDensity`. -/
theorem c2_scoring_breakdown (flags : Nat) (e : DNode) (ancs : List AncestorInfo)
    (ld : Nat → ℚ)
    (hlen : ¬((getInnerText e).length < 25))
    (hnodup : (List.map AncestorInfo.ref ancs).Nodup)
    (hvalid : ∀ a ∈ ancs, a.valid = true) :
    elementContentScore (getInnerText e)
        = 1 + (countCommas (getInnerText e) : ℚ)
            + ((min ((getInnerText e).length / 100) 3 : Nat) : ℚ)
      ∧ scoreDivider 0 = 1
      ∧ scoreDivider 1 = 2
      ∧ (∀ l, 2 ≤ l → scoreDivider l = (l : ℚ) * 3)
      ∧ (∀ a : AncestorInfo, initializeNodeScore flags a
            = ((initialTagScore a.tagName : Int) : ℚ)
              + ((getClassWeightStr flags a.className a.idStr : Int) : ℚ))
      ∧ (flagIsActive flags FLAG_WEIGHT_CLASSES = false →
          ∀ a : AncestorInfo, initializeNodeScore flags a
            = ((initialTagScore a.tagName : Int) : ℚ))
      ∧ ∀ i, i < min ancs.length 5 → ∀ d : AncestorInfo,
          (scoreElement flags e ancs emptyScoreState).scores (ancs.getD i d).ref
              = some (initializeNodeScore flags (ancs.getD i d)
                  + elementContentScore (getInnerText e) / scoreDivider i)
            ∧ (ancs.getD i d).ref ∈ (scoreElement flags e ancs emptyScoreState).candidates
            ∧ (finalizeCandidateScores ld
                  (scoreElement flags e ancs emptyScoreState)).scores (ancs.getD i d).ref
                = some ((initializeNodeScore flags (ancs.getD i d)
                    + elementContentScore (getInnerText e) / scoreDivider i)
                    * (1 - ld (ancs.getD i d).ref)) := by
  refine ⟨rfl, rfl, rfl, ?_, ?_, ?_, ?_⟩
  · intro l hl
    simp only [scoreDivider]
    rw [if_neg (by omega), if_pos (by omega)]
  · intro a
    simp only [initializeNodeScore]
    push_cast
    ring
  · intro hflag a
    simp only [initializeNodeScore, getClassWeightStr, hflag, Bool.not_false, if_true]
    push_cast
    ring
  · intro i hi d
    have hia : i < ancs.length := lt_of_lt_of_le hi (min_le_left _ _)
    have hi5 : i < 5 := lt_of_lt_of_le hi (min_le_right _ _)
    have hanz : ¬(ancs.isEmpty = true) := by
      cases ancs with
      | nil => simp at hia
      | cons x xs => simp
    have hsel : scoreElement flags e ancs emptyScoreState
        = scoreAncestors flags (elementContentScore (getInnerText e))
            (ancs.take 5) 0 emptyScoreState := by
      simp only [scoreElement]
      rw [if_neg hlen, if_neg hanz]
    have hnd5 : (List.map AncestorInfo.ref (ancs.take 5)).Nodup := by
      rw [List.map_take]
      exact (List.take_sublist 5 (List.map AncestorInfo.ref ancs)).nodup hnodup
    have hv5 : ∀ a ∈ ancs.take 5, a.valid = true :=
      fun a ha => hvalid a ((List.take_sublist 5 ancs).subset ha)
    have hi5' : i < (ancs.take 5).length := by
      rw [List.length_take]
      omega
    have hkey := scoreAncestors_getD flags (elementContentScore (getInnerText e))
      (ancs.take 5) 0 emptyScoreState hnd5 hv5 i hi5' d rfl
    rw [getD_take_of_lt ancs 5 i hi5 d] at hkey
    rw [Nat.zero_add] at hkey
    rw [hsel]
    refine ⟨hkey.1, hkey.2, ?_⟩
    rw [finalizeCandidateScores_scores_mem ld _ _ hkey.2, hkey.1]
    rfl

/-- Witness for C2: the paragraph `c2e` (one comma, over 25 characters)
with ancestors `c2ancs` under all flags active; the level-0 `DIV`
ancestor's score is its base plus the full contribution. -/
theorem c2_scoring_breakdown_witness :
    (scoreElement 7 c2e c2ancs emptyScoreState).scores
        ((c2ancs.getD 0 ⟨0, "", "", "", false⟩).ref)
      = some (initializeNodeScore 7 (c2ancs.getD 0 ⟨0, "", "", "", false⟩)
          + elementContentScore (getInnerText c2e) / scoreDivider 0) :=
  ((c2_scoring_breakdown 7 c2e c2ancs (fun _ => 0) (by decide) (by decide)
      (by decide)).2.2.2.2.2.2 0 (by decide) ⟨0, "", "", "", false⟩).1

/-- A protocol-relative URI is nonempty and is not a hash link. -/
theorem jsStartsWith_slashslash (uri : String) (h : jsStartsWith uri "//" = true) :
    uri ≠ "" ∧ jsStartsWith uri "#" = false := by
  obtain ⟨l⟩ := uri
  rw [show jsStartsWith ⟨l⟩ "//" = listIsPrefix ['/', '/'] l from rfl] at h
  cases l with
  | nil => simp [listIsPrefix] at h
  | cons c rest =>
    simp only [listIsPrefix, Bool.and_eq_true, beq_iff_eq] at h
    constructor
    · intro he
      exact List.cons_ne_nil c rest (congrArg String.data he)
    · rw [show jsStartsWith ⟨c :: rest⟩ "#" = listIsPrefix ['#'] (c :: rest) from rfl]
      simp [listIsPrefix, ← h.1]

/-- Claim C9: the URI-fixing step rewrites every href/src/poster/srcset
value to an absolute URI resolved against the base URI — a hash-only link
is untouched when the base URI equals the document URI; a
protocol-relative URI receives the base URI's protocol before resolution;
a URI that fails to resolve is passed through unchanged, a resolvable one
becomes the resolved absolute URI; the media pass rewrites every media
element's src/poster/srcset entrywise and the anchor pass rewrites every
ordinary anchor's href; in particular an `IMG` with src "/pic.png" under
base "https://example.com/a/" ends with src
"https://example.com/pic.png". -/
theorem c9_uri_rewriting :
    (∀ (env : UriEnv) (uri : String), env.baseURI = env.documentURI →
        jsStartsWith uri "#" = true → toAbsoluteURI env uri = uri)
      ∧ (∀ (env : UriEnv) (uri : String), jsStartsWith uri "//" = true →
          toAbsoluteURI env uri
            = (env.resolve (env.protocol ++ uri)).getD (env.protocol ++ uri))
      ∧ (∀ (env : UriEnv) (uri : String), uri ≠ "" → jsStartsWith uri "#" = false →
          jsStartsWith uri "//" = false → env.resolve uri = none →
          toAbsoluteURI env uri = uri)
      ∧ (∀ (env : UriEnv) (uri v : String), uri ≠ "" → jsStartsWith uri "#" = false →
          jsStartsWith uri "//" = false → env.resolve uri = some v →
          toAbsoluteURI env uri = v)
      ∧ (∀ (env : UriEnv) (t : DNode),
          elemsList (fixRelativeUris env t)
            = (elemsList (fixAnchorsNode env t)).map (mediaEntryMap env))
      ∧ (∀ (env : UriEnv) (a : List (String × String)) (v : String),
          attrsGet "src" a = some v → v ≠ "" →
          attrsGet "src" (fixMediaAttrs env a) = some (toAbsoluteURI env v))
      ∧ (∀ (env : UriEnv) (a : List (String × String)) (v : String),
          attrsGet "poster" a = some v → v ≠ "" →
          attrsGet "poster" (fixMediaAttrs env a) = some (toAbsoluteURI env v))
      ∧ (∀ (env : UriEnv) (a : List (String × String)) (v : String),
          attrsGet "srcset" a = some v → v ≠ "" →
          attrsGet "srcset" (fixMediaAttrs env a) = some (jsSrcsetReplace env v))
      ∧ (∀ (env : UriEnv) (r : Nat) (a : List (String × String)) (cs : List DNode)
            (href : String), attrsGet "href" a = some href → href ≠ "" →
          jsStartsWith href "javascript:" = false →
          fixAnchorsNode env (.elem r "A" a cs)
            = .elem r "A" (attrsSet "href" (toAbsoluteURI env href) a)
                (fixAnchorsList env cs))
      ∧ elemsList (fixRelativeUris c9env c9doc)
          = [(1, "DIV", []), (2, "IMG", [("src", "https://example.com/pic.png")])] := by
  refine ⟨?_, ?_, ?_, ?_, ?_, ?_, ?_, ?_, ?_, ?_⟩
  · intro env uri hb hh
    by_cases he : uri = ""
    · simp [toAbsoluteURI, he]
    · simp [toAbsoluteURI, he, hb, hh]
  · intro env uri h2
    obtain ⟨hne, hh⟩ := jsStartsWith_slashslash uri h2
    simp [toAbsoluteURI, hne, hh, h2]
  · intro env uri hne hh h2 hres
    simp [toAbsoluteURI, hne, hh, h2, hres]
  · intro env uri v hne hh h2 hres
    simp [toAbsoluteURI, hne, hh, h2, hres]
  · exact fun env t => elemsList_fixMediaNode env (fixAnchorsNode env t)
  · intro env a v h hv
    have hpo : ∀ w b, attrsGet "src" (attrsSet "poster" w b) = attrsGet "src" b :=
      fun w b => attrsGet_attrsSet_other "poster" "src" w (by decide) b
    have hss : ∀ w b, attrsGet "src" (attrsSet "srcset" w b) = attrsGet "src" b :=
      fun w b => attrsGet_attrsSet_other "srcset" "src" w (by decide) b
    have hsame : attrsGet "src" (attrsSet "src" (toAbsoluteURI env v) a)
        = some (toAbsoluteURI env v) := attrsGet_attrsSet_same _ _ _
    simp only [fixMediaAttrs, h]
    rw [if_pos hv]
    repeat' split
    all_goals simp_all
  · intro env a v h hv
    have hg1 : ∀ w b, attrsGet "poster" (attrsSet "src" w b) = attrsGet "poster" b :=
      fun w b => attrsGet_attrsSet_other "src" "poster" w (by decide) b
    have hg2 : ∀ w b, attrsGet "poster" (attrsSet "srcset" w b) = attrsGet "poster" b :=
      fun w b => attrsGet_attrsSet_other "srcset" "poster" w (by decide) b
    have hsame : ∀ w b, attrsGet "poster" (attrsSet "poster" w b) = some w :=
      fun w b => attrsGet_attrsSet_same _ _ _
    simp only [fixMediaAttrs]
    repeat' split
    all_goals simp_all
  · intro env a v h hv
    have hg1 : ∀ w b, attrsGet "srcset" (attrsSet "src" w b) = attrsGet "srcset" b :=
      fun w b => attrsGet_attrsSet_other "src" "srcset" w (by decide) b
    have hg2 : ∀ w b, attrsGet "srcset" (attrsSet "poster" w b) = attrsGet "srcset" b :=
      fun w b => attrsGet_attrsSet_other "poster" "srcset" w (by decide) b
    have hsame : ∀ w b, attrsGet "srcset" (attrsSet "srcset" w b) = some w :=
      fun w b => attrsGet_attrsSet_same _ _ _
    simp only [fixMediaAttrs]
    repeat' split
    all_goals simp_all
  · intro env r a cs href h hv hjs
    simp [fixAnchorsNode, h, hv, hjs]
  · with_unfolding_all rfl

/-- Witness for C9: the concrete `src` attribute "/pic.png" of `c9doc`'s
image is rewritten by the media pass to its absolute form under `c9env`,
which resolves to "https://example.com/pic.png". -/
theorem c9_uri_rewriting_witness :
    attrsGet "src" (fixMediaAttrs c9env [("src", "/pic.png")])
        = some (toAbsoluteURI c9env "/pic.png")
      ∧ toAbsoluteURI c9env "/pic.png" = "https://example.com/pic.png" := by
  constructor
  · exact c9_uri_rewriting.2.2.2.2.2.1 c9env [("src", "/pic.png")] "/pic.png"
      (by decide) (by decide)
  · with_unfolding_all rfl

/-- The media pass never changes which nodes are `javascript:` anchors
(`A` is not a media tag, and tags and children structure are kept). -/
theorem hasJsAnchor_fixMediaNode (env : UriEnv) : ∀ t : DNode,
    hasJsAnchor (fixMediaNode env t) = hasJsAnchor t := by
  intro t
  induction t using DNode.strongInd with
  | ht s => rfl
  | he r tg a cs ih =>
    have tail : ∀ cs' : List DNode,
        (∀ c ∈ cs', hasJsAnchor (fixMediaNode env c) = hasJsAnchor c) →
        (allElemsList (fixMediaList env cs')).any isJsAnchor
          = (allElemsList cs').any isJsAnchor := by
      intro cs' h
      induction cs' with
      | nil => rfl
      | cons c rest ihl =>
        simp only [fixMediaList, allElemsList, List.any_append]
        rw [show (allElems (fixMediaNode env c)).any isJsAnchor
            = (allElems c).any isJsAnchor from h c (by simp)]
        rw [ihl (fun c' hc' => h c' (by simp [hc']))]
    show hasJsAnchor (DNode.elem r tg
        (if MEDIA_TAGS.contains tg then fixMediaAttrs env a else a)
        (fixMediaList env cs)) = _
    simp only [hasJsAnchor, allElems, List.any_cons]
    rw [tail cs ih]
    congr 1
    by_cases hA : tg = "A"
    · subst hA
      rw [show MEDIA_TAGS.contains "A" = false from rfl]
      rfl
    · simp [isJsAnchor, DNode.tagOf, hA]

/-- Under a js-safe resolver the anchor pass leaves no `javascript:`
anchor anywhere in its output. -/
theorem hasJsAnchor_fixAnchorsNode (env : UriEnv) (hsafe : env.jsSafe) :
    ∀ t : DNode, hasJsAnchor (fixAnchorsNode env t) = false := by
  intro t
  induction t using DNode.strongInd with
  | ht s => rfl
  | he r tg a cs ih =>
    have tail : ∀ cs' : List DNode,
        (∀ c ∈ cs', hasJsAnchor (fixAnchorsNode env c) = false) →
        (allElemsList (fixAnchorsList env cs')).any isJsAnchor = false := by
      intro cs' h
      induction cs' with
      | nil => rfl
      | cons c rest ihl =>
        simp only [fixAnchorsList, allElemsList, List.any_append, Bool.or_eq_false_iff]
        exact ⟨h c (by simp), ihl (fun c' hc' => h c' (by simp [hc']))⟩
    by_cases hA : tg = "A"
    · subst hA
      cases hh : attrsGet "href" a with
      | none =>
        simp only [fixAnchorsNode, hh]
        rw [if_pos trivial]
        simp only [hasJsAnchor, allElems, List.any_cons, Bool.or_eq_false_iff]
        refine ⟨?_, tail cs ih⟩
        simp only [isJsAnchor, DNode.tagOf, DNode.getAttr, hh]
        decide
      | some href =>
        by_cases hhe : href = ""
        · subst hhe
          simp only [fixAnchorsNode, hh]
          rw [if_pos trivial, if_neg (by simp)]
          simp only [hasJsAnchor, allElems, List.any_cons, Bool.or_eq_false_iff]
          refine ⟨?_, tail cs ih⟩
          simp only [isJsAnchor, DNode.tagOf, DNode.getAttr, hh]
          decide
        · cases hjs : jsStartsWith href "javascript:" with
          | true =>
            simp only [fixAnchorsNode, hh]
            rw [if_pos trivial, if_pos hhe, if_pos hjs]
            rcases cs with _ | ⟨c, rest⟩
            · simp only [hasJsAnchor, allElems, List.any_cons, Bool.or_eq_false_iff]
              exact ⟨rfl, tail [] (by simp)⟩
            · rcases rest with _ | ⟨c2, rest2⟩
              · rcases c with s | ⟨r2, t2, a2, cs2⟩
                · rfl
                · simp only [hasJsAnchor, allElems, List.any_cons, Bool.or_eq_false_iff]
                  exact ⟨rfl, tail [DNode.elem r2 t2 a2 cs2] ih⟩
              · simp only [hasJsAnchor, allElems, List.any_cons, Bool.or_eq_false_iff]
                exact ⟨rfl, tail (c :: c2 :: rest2) ih⟩
          | false =>
            simp only [fixAnchorsNode, hh]
            rw [if_pos trivial, if_pos hhe, if_neg (by simp [hjs])]
            simp only [hasJsAnchor, allElems, List.any_cons, Bool.or_eq_false_iff]
            refine ⟨?_, tail cs ih⟩
            have hget : attrsGet "href" (attrsSet "href" (toAbsoluteURI env href) a)
                = some (toAbsoluteURI env href) := attrsGet_attrsSet_same _ _ _
            have hout : jsPrefixed (toAbsoluteURI env href) = false := hsafe href hjs
            simp [isJsAnchor, DNode.getAttr, hget, hout]
    · simp only [fixAnchorsNode]
      rw [if_neg hA]
      simp only [hasJsAnchor, allElems, List.any_cons, Bool.or_eq_false_iff]
      refine ⟨?_, tail cs ih⟩
      simp [isJsAnchor, DNode.tagOf, hA]

/-- Claim C10: after the URI-fixing step, no anchor whose href begins
with "javascript:" remains anywhere in the content (for any js-safe
resolver environment); such an anchor with exactly one text-node child is
replaced by that text node, and otherwise by a `SPAN` holding its
(recursively fixed) children. -/
theorem c10_no_javascript_anchors (env : UriEnv) (hsafe : env.jsSafe) :
    (∀ t : DNode, hasJsAnchor (fixRelativeUris env t) = false)
      ∧ (∀ (r : Nat) (a : List (String × String)) (s href : String),
          attrsGet "href" a = some href → jsPrefixed href = true →
          fixAnchorsNode env (.elem r "A" a [.text s]) = .text s)
      ∧ (∀ (r : Nat) (a : List (String × String)) (cs : List DNode) (href : String),
          attrsGet "href" a = some href → jsPrefixed href = true →
          (∀ s, cs ≠ [.text s]) →
          fixAnchorsNode env (.elem r "A" a cs)
            = .elem 0 "SPAN" [] (fixAnchorsList env cs)) := by
  refine ⟨?_, ?_, ?_⟩
  · intro t
    rw [show fixRelativeUris env t = fixMediaNode env (fixAnchorsNode env t) from rfl]
    rw [hasJsAnchor_fixMediaNode env (fixAnchorsNode env t)]
    exact hasJsAnchor_fixAnchorsNode env hsafe t
  · intro r a s href h hjs
    have hne : href ≠ "" := by
      intro he
      rw [he] at hjs
      exact absurd hjs (by decide)
    have hjs' : jsStartsWith href "javascript:" = true := hjs
    simp only [fixAnchorsNode, h]
    rw [if_pos trivial, if_pos hne, if_pos hjs']
  · intro r a cs href h hjs hshape
    have hne : href ≠ "" := by
      intro he
      rw [he] at hjs
      exact absurd hjs (by decide)
    have hjs' : jsStartsWith href "javascript:" = true := hjs
    simp only [fixAnchorsNode, h]
    rw [if_pos trivial, if_pos hne, if_pos hjs']

/-- Witness for C10: a concrete js-safe environment applied to `c10doc`
(two `javascript:` anchors and one ordinary link) leaves no
`javascript:` anchor in the fixed content. -/
theorem c10_no_javascript_anchors_witness :
    hasJsAnchor (fixRelativeUris ⟨"", "", "x:", fun _ => none⟩ c10doc) = false :=
  (c10_no_javascript_anchors ⟨"", "", "x:", fun _ => none⟩
    (by
      intro h hjp
      by_cases he : h = ""
      · rw [show toAbsoluteURI ⟨"", "", "x:", fun _ => none⟩ h = h by
          simp [toAbsoluteURI, he]]
        exact hjp
      · by_cases hh : jsStartsWith h "#" = true
        · rw [show toAbsoluteURI ⟨"", "", "x:", fun _ => none⟩ h = h by
            simp [toAbsoluteURI, he, hh]]
          exact hjp
        · by_cases h2 : jsStartsWith h "//" = true
          · rw [show toAbsoluteURI ⟨"", "", "x:", fun _ => none⟩ h = "x:" ++ h by
              simp [toAbsoluteURI, he, hh, h2]]
            obtain ⟨l⟩ := h
            rw [show (("x:" : String) ++ (⟨l⟩ : String)) = ⟨'x' :: ':' :: l⟩ from rfl]
            rw [show jsPrefixed ⟨'x' :: ':' :: l⟩
                = listIsPrefix ("javascript:".data) ('x' :: ':' :: l) from rfl]
            rw [show ("javascript:".data)
                = ['j', 'a', 'v', 'a', 's', 'c', 'r', 'i', 'p', 't', ':'] from rfl]
            simp [listIsPrefix]
          · rw [show toAbsoluteURI ⟨"", "", "x:", fun _ => none⟩ h = h by
              simp [toAbsoluteURI, he, hh, h2]]
            exact hjp)).1 c10doc

end Readability
